import Mathlib

/-!
Shallow embedding of `src/gather_agent.py` (GatherWin): an identity/session
agent that loads an Ed25519 keypair, performs a challenge-response
authentication against a remote service, caches the bearer credential in
`auth.json`, and re-authenticates when the cached token is absent or judged
expired.

The embedding models:
  * JSON values and the parts of Python's `json` module the program uses
    (`json.dumps(..., indent=2)` / `json.loads`), restricted to integer
    numeric literals (the program never produces fractional numbers and no
    claim depends on them);
  * Python's `base64.b64decode` (default `validate=False` mode, matching
    CPython's `binascii.a2b_base64` non-strict algorithm) and
    `base64.b64encode`;
  * strict UTF-8 decoding of byte strings, as done by `json.loads` on bytes;
  * the filesystem / network effects of `load_keys`, `authenticate`,
    `get_token`, `api_get`, `api_post`, `api_put` as explicit state passing
    over a file-system record plus an event trace; Python exceptions become
    `Except Err`.
-/

namespace GatherAgent

/-! ## JSON values

Python `dict`s preserve insertion order and have unique keys; we model
objects as ordered association lists, with well-formedness (`wfB`) stating
that keys are distinct.  Numbers are modelled as integers. -/

inductive Json where
  | null : Json
  | bool : Bool → Json
  | num : Int → Json
  | str : String → Json
  | arr : List Json → Json
  | obj : List (String × Json) → Json

/-- Characters written via code points so that no brace appears in a literal. -/
def lbraceC : Char := Char.ofNat 123

def rbraceC : Char := Char.ofNat 125

def lbrackC : Char := Char.ofNat 91

def rbrackC : Char := Char.ofNat 93

def backslashC : Char := Char.ofNat 92

def quoteC : Char := Char.ofNat 34

/-- Lowercase hexadecimal digit, as CPython's `\uXXXX` escapes emit. -/
def hexDigitChar (n : Nat) : Char :=
  if n < 10 then Char.ofNat (48 + n) else Char.ofNat (87 + n)

/-- The four-hex-digit rendering of `n % 65536`. -/
def hex4 (n : Nat) : List Char :=
  [hexDigitChar (n / 4096 % 16), hexDigitChar (n / 256 % 16),
   hexDigitChar (n / 16 % 16), hexDigitChar (n % 16)]

/-- CPython `json.encoder.py_encode_basestring_ascii` escaping of one
character (default `ensure_ascii=True`): `"` and `\` are escaped, the five
shorthand control escapes are used, every other character outside
`0x20`–`0x7e` becomes `\uXXXX`, with a surrogate pair above `0xffff`. -/
def escChar (c : Char) : List Char :=
  let n := c.toNat
  if c = quoteC then [backslashC, quoteC]
  else if c = backslashC then [backslashC, backslashC]
  else if n = 8 then [backslashC, 'b']
  else if n = 9 then [backslashC, 't']
  else if n = 10 then [backslashC, 'n']
  else if n = 12 then [backslashC, 'f']
  else if n = 13 then [backslashC, 'r']
  else if 32 ≤ n ∧ n ≤ 126 then [c]
  else if n < 65536 then backslashC :: 'u' :: hex4 n
  else
    let m := n - 65536
    (backslashC :: 'u' :: hex4 (55296 + m / 1024)) ++
      (backslashC :: 'u' :: hex4 (56320 + m % 1024))

def escList : List Char → List Char
  | [] => []
  | c :: r => escChar c ++ escList r

/-- JSON string literal for `s`, including the surrounding quotes. -/
def dumpStr (s : String) : List Char :=
  quoteC :: escList s.data ++ [quoteC]

def digitChar (d : Nat) : Char := Char.ofNat (48 + d)

/-- Decimal digits of `n`, most significant first (fuel-structural so that
it reduces definitionally; `natDigits` wraps it). -/
def natDigitsAux : Nat → Nat → List Char
  | 0, _ => []
  | _ + 1, 0 => []
  | fuel + 1, n => natDigitsAux fuel (n / 10) ++ [digitChar (n % 10)]

def natDigits (n : Nat) : List Char :=
  if n = 0 then ['0'] else natDigitsAux (n + 1) n

/-- `repr` of a Python int, as `json.dumps` emits it. -/
def dumpInt (n : Int) : List Char :=
  if n < 0 then '-' :: natDigits n.natAbs else natDigits n.natAbs

/-- `'\n'` followed by `n` spaces: the separator `json.dumps(..., indent=2)`
puts before an element at indentation level `n`. -/
def nlInd (n : Nat) : List Char :=
  '\n' :: List.replicate n ' '

mutual

/-- `json.dumps(j, indent=2)` at current indentation `ind`, as a character
list.  Item separator is `","` + newline-indent, key separator is `": "`,
and empty containers print without internal whitespace — matching CPython. -/
def dumpVal : Json → Nat → List Char
  | .null, _ => ['n', 'u', 'l', 'l']
  | .bool true, _ => ['t', 'r', 'u', 'e']
  | .bool false, _ => ['f', 'a', 'l', 's', 'e']
  | .num n, _ => dumpInt n
  | .str s, _ => dumpStr s
  | .arr [], _ => [lbrackC, rbrackC]
  | .arr (x :: xs), ind =>
      lbrackC :: (nlInd (ind + 2) ++ dumpVal x (ind + 2) ++
        dumpElems xs (ind + 2) ++ nlInd ind ++ [rbrackC])
  | .obj [], _ => [lbraceC, rbraceC]
  | .obj (kv :: kvs), ind =>
      lbraceC :: (nlInd (ind + 2) ++ dumpStr kv.1 ++ ':' :: ' ' ::
        dumpVal kv.2 (ind + 2) ++ dumpFields kvs (ind + 2) ++
        nlInd ind ++ [rbraceC])

def dumpElems : List Json → Nat → List Char
  | [], _ => []
  | x :: xs, ind => ',' :: (nlInd ind ++ dumpVal x ind ++ dumpElems xs ind)

def dumpFields : List (String × Json) → Nat → List Char
  | [], _ => []
  | kv :: kvs, ind =>
      ',' :: (nlInd ind ++ dumpStr kv.1 ++ ':' :: ' ' ::
        dumpVal kv.2 ind ++ dumpFields kvs ind)

end

/-- `json.dump(j, f, indent=2)`: the text written to the credential file. -/
def Json.dumps (j : Json) : String :=
  String.mk (dumpVal j 0)

/-! ## JSON parsing (`json.loads`)

A recursive-descent parser over character lists, fuelled so that every
function is structurally recursive (and hence reduces definitionally).
It follows CPython's strict decoder: whitespace is ` \t\n\r`; strings
reject unescaped control characters; numbers follow `-?(0|[1-9][0-9]*)`
(fraction/exponent forms — floats — are outside the integer model);
duplicate object keys keep the first key's position and the last value;
trailing input after the top-level value is an error.  Lone surrogate
`\uXXXX` escapes (which CPython keeps as surrogate code units) are not
representable in Lean strings and are rejected. -/

def isWsChar (c : Char) : Bool :=
  c == ' ' || c == '\t' || c == '\n' || c == '\r'

def skipWs (cs : List Char) : List Char :=
  cs.dropWhile isWsChar

def isDigitChar (c : Char) : Bool :=
  48 ≤ c.toNat && c.toNat ≤ 57

def digitVal (c : Char) : Nat := c.toNat - 48

def isHexChar (c : Char) : Bool :=
  isDigitChar c || (97 ≤ c.toNat && c.toNat ≤ 102) || (65 ≤ c.toNat && c.toNat ≤ 70)

def hexVal (c : Char) : Nat :=
  if isDigitChar c then c.toNat - 48
  else if 97 ≤ c.toNat then c.toNat - 87
  else c.toNat - 55

/-- Decode one escape sequence after a backslash, returning the character
and the remaining input.  Covers the two-character escapes and `\uXXXX`,
recombining a high/low surrogate pair into one character. -/
def pEsc : List Char → Option (Char × List Char)
  | [] => none
  | e :: r =>
    if e = quoteC then some (quoteC, r)
    else if e = backslashC then some (backslashC, r)
    else if e = '/' then some ('/', r)
    else if e = 'b' then some (Char.ofNat 8, r)
    else if e = 'f' then some (Char.ofNat 12, r)
    else if e = 'n' then some (Char.ofNat 10, r)
    else if e = 'r' then some (Char.ofNat 13, r)
    else if e = 't' then some (Char.ofNat 9, r)
    else if e = 'u' then
      match r with
      | h1 :: h2 :: h3 :: h4 :: r2 =>
        if isHexChar h1 && isHexChar h2 && isHexChar h3 && isHexChar h4 then
          let n := hexVal h1 * 4096 + hexVal h2 * 256 + hexVal h3 * 16 + hexVal h4
          if 55296 ≤ n ∧ n ≤ 56319 then
            match r2 with
            | b :: u :: g1 :: g2 :: g3 :: g4 :: r3 =>
              if b = backslashC ∧ u = 'u' ∧
                  (isHexChar g1 && isHexChar g2 && isHexChar g3 && isHexChar g4) then
                let m := hexVal g1 * 4096 + hexVal g2 * 256 + hexVal g3 * 16 + hexVal g4
                if 56320 ≤ m ∧ m ≤ 57343 then
                  some (Char.ofNat (65536 + (n - 55296) * 1024 + (m - 56320)), r3)
                else none
              else none
            | _ => none
          else if 56320 ≤ n ∧ n ≤ 57343 then none
          else some (Char.ofNat n, r2)
        else none
      | _ => none
    else none

/-- Parse the body of a string literal (after the opening quote), up to and
including the closing quote. -/
def pStrBody : Nat → List Char → Option (List Char × List Char)
  | 0, _ => none
  | fuel + 1, cs =>
    match cs with
    | [] => none
    | c :: r =>
      if c = quoteC then some ([], r)
      else if c = backslashC then
        match pEsc r with
        | none => none
        | some (d, r2) =>
          match pStrBody fuel r2 with
          | none => none
          | some (l, rest) => some (d :: l, rest)
      else if c.toNat < 32 then none
      else
        match pStrBody fuel r with
        | none => none
        | some (l, rest) => some (c :: l, rest)

def foldDigits : Nat → List Char → Nat
  | acc, [] => acc
  | acc, c :: r => foldDigits (acc * 10 + digitVal c) r

theorem foldDigits_nil (acc : Nat) : foldDigits acc [] = acc := rfl

theorem foldDigits_cons (acc : Nat) (c : Char) (r : List Char) :
    foldDigits acc (c :: r) = foldDigits (acc * 10 + digitVal c) r := rfl

/-- The unsigned part of an integer literal, `0|[1-9][0-9]*` (maximal-munch
stops right after a leading `0`, as CPython's regex does). -/
def pNumBody (neg : Bool) : List Char → Option (Int × List Char)
  | [] => none
  | c :: r =>
    if c = '0' then some (0, r)
    else if isDigitChar c then
      let digits := r.takeWhile isDigitChar
      let rest := r.dropWhile isDigitChar
      let v : Int := Int.ofNat (foldDigits (digitVal c) digits)
      some (if neg then -v else v, rest)
    else none

/-- Parse an integer literal per the JSON grammar `-?(0|[1-9][0-9]*)`. -/
def pNum (cs : List Char) : Option (Int × List Char) :=
  match cs with
  | c :: r => if c = '-' then pNumBody true r else pNumBody false (c :: r)
  | [] => none

/-- Insert a key/value pair into an ordered association list the way
`dict.__setitem__` does while `json.loads` builds an object: an existing
key keeps its position but takes the new value; a new key is appended. -/
def insertUpd (k : String) (v : Json) : List (String × Json) → List (String × Json)
  | [] => [(k, v)]
  | kv :: r => if kv.1 = k then (k, v) :: r else kv :: insertUpd k v r

mutual

/-- Parse one JSON value: skip whitespace, dispatch on the first character. -/
def pVal : Nat → List Char → Option (Json × List Char)
  | 0, _ => none
  | fuel + 1, cs =>
    match skipWs cs with
    | [] => none
    | c :: rest =>
      if c = lbraceC then
        match skipWs rest with
        | d :: rest2 =>
          if d = rbraceC then some (.obj [], rest2) else pFields fuel rest []
        | [] => none
      else if c = lbrackC then
        match skipWs rest with
        | d :: rest2 =>
          if d = rbrackC then some (.arr [], rest2) else pElems fuel rest []
        | [] => none
      else if c = quoteC then
        match pStrBody (rest.length + 1) rest with
        | none => none
        | some (l, rest2) => some (.str (String.mk l), rest2)
      else if c = 't' then
        match rest with
        | 'r' :: 'u' :: 'e' :: rest2 => some (.bool true, rest2)
        | _ => none
      else if c = 'f' then
        match rest with
        | 'a' :: 'l' :: 's' :: 'e' :: rest2 => some (.bool false, rest2)
        | _ => none
      else if c = 'n' then
        match rest with
        | 'u' :: 'l' :: 'l' :: rest2 => some (.null, rest2)
        | _ => none
      else if c = '-' || isDigitChar c then
        match pNum (c :: rest) with
        | none => none
        | some (v, rest2) => some (.num v, rest2)
      else none

/-- Parse the members of a non-empty object, starting right after the `\x7b`
(the accumulated fields are in `acc`). -/
def pFields : Nat → List Char → List (String × Json) → Option (Json × List Char)
  | 0, _, _ => none
  | fuel + 1, cs, acc =>
    match skipWs cs with
    | [] => none
    | c :: rest =>
      if c = quoteC then
        match pStrBody (rest.length + 1) rest with
        | none => none
        | some (l, rest2) =>
          match skipWs rest2 with
          | [] => none
          | d :: rest3 =>
            if d = ':' then
              match pVal fuel rest3 with
              | none => none
              | some (v, rest4) =>
                let acc2 := insertUpd (String.mk l) v acc
                match skipWs rest4 with
                | [] => none
                | e :: rest5 =>
                  if e = ',' then pFields fuel rest5 acc2
                  else if e = rbraceC then some (.obj acc2, rest5)
                  else none
            else none
      else none

/-- Parse the elements of a non-empty array, starting right after the `[`. -/
def pElems : Nat → List Char → List Json → Option (Json × List Char)
  | 0, _, _ => none
  | fuel + 1, cs, acc =>
    match pVal fuel cs with
    | none => none
    | some (v, rest) =>
      let acc2 := acc ++ [v]
      match skipWs rest with
      | [] => none
      | e :: rest2 =>
        if e = ',' then pElems fuel rest2 acc2
        else if e = rbrackC then some (.arr acc2, rest2)
        else none

end

/-- `json.loads s` (integer-number fragment): parse one value and require
only whitespace after it. -/
def Json.loads (s : String) : Option Json :=
  match pVal (s.data.length + 1) s.data with
  | none => none
  | some (j, rest) => if skipWs rest = [] then some j else none

/-! ## Base64 (`base64.b64decode` / `base64.b64encode`)

`b64decode` is called with the default `validate=False`, which is CPython's
`binascii.a2b_base64` in non-strict mode: characters outside the standard
alphabet are skipped; a `=` when at least two data characters of the current
quad have been seen (and enough pads accumulate to complete it) terminates
decoding successfully, discarding the rest of the input; a `=` earlier in a
quad is ignored; leftover data characters at the end (quad position 1, 2 or
3) are an error.  A non-ASCII input string is an error before decoding. -/

def b64val (c : Char) : Option Nat :=
  let n := c.toNat
  if 65 ≤ n ∧ n ≤ 90 then some (n - 65)
  else if 97 ≤ n ∧ n ≤ 122 then some (n - 71)
  else if 48 ≤ n ∧ n ≤ 57 then some (n + 4)
  else if c = '+' then some 62
  else if c = '/' then some 63
  else none

/-- CPython `binascii.a2b_base64`, non-strict mode.  State: input, quad
position (0–3), pending bits, count of pads seen in the current quad,
reversed output bytes. -/
def a2bBase64 : List Char → Nat → Nat → Nat → List Nat → Option (List Nat)
  | [], quadPos, _, _, acc => if quadPos = 0 then some acc.reverse else none
  | c :: r, quadPos, left, pads, acc =>
    if c = '=' then
      if 2 ≤ quadPos then
        if 4 ≤ quadPos + (pads + 1) then some acc.reverse
        else a2bBase64 r quadPos left (pads + 1) acc
      else a2bBase64 r quadPos left pads acc
    else
      match b64val c with
      | none => a2bBase64 r quadPos left pads acc
      | some d =>
        match quadPos with
        | 0 => a2bBase64 r 1 d 0 acc
        | 1 => a2bBase64 r 2 (d % 16) 0 ((left * 4 + d / 16) :: acc)
        | 2 => a2bBase64 r 3 (d % 4) 0 ((left * 16 + d / 4) :: acc)
        | _ => a2bBase64 r 0 0 0 ((left * 64 + d) :: acc)

/-- `base64.b64decode(s)` on a `str` argument: the string must be ASCII
(else `ValueError`), then `a2b_base64` runs in non-strict mode. -/
def pyB64decode (s : String) : Option (List Nat) :=
  if s.data.all (fun c => c.toNat < 128) then a2bBase64 s.data 0 0 0 []
  else none

def b64chr (n : Nat) : Char :=
  if n < 26 then Char.ofNat (65 + n)
  else if n < 52 then Char.ofNat (71 + n)
  else if n < 62 then Char.ofNat (n - 4)
  else if n = 62 then '+'
  else '/'

/-- `base64.b64encode` of a byte list (standard alphabet, `=`-padded). -/
def b64encode : List Nat → List Char
  | b0 :: b1 :: b2 :: r =>
      b64chr (b0 / 4) :: b64chr (b0 % 4 * 16 + b1 / 16) ::
        b64chr (b1 % 16 * 4 + b2 / 64) :: b64chr (b2 % 64) :: b64encode r
  | [b0, b1] =>
      [b64chr (b0 / 4), b64chr (b0 % 4 * 16 + b1 / 16), b64chr (b1 % 16 * 4), '=']
  | [b0] => [b64chr (b0 / 4), b64chr (b0 % 4 * 16), '=', '=']
  | [] => []

/-! ## UTF-8 decoding

`json.loads` on a `bytes` argument decodes it as UTF-8 (strict) first.
Standard validation: no overlong forms, no surrogates, at most U+10FFFF. -/

def utf8DecodeAux : Nat → List Nat → Option (List Char)
  | 0, _ => none
  | _ + 1, [] => some []
  | fuel + 1, b :: r =>
    if b < 128 then
      match utf8DecodeAux fuel r with
      | none => none
      | some l => some (Char.ofNat b :: l)
    else if 194 ≤ b ∧ b ≤ 223 then
      match r with
      | c1 :: r2 =>
        if 128 ≤ c1 ∧ c1 ≤ 191 then
          match utf8DecodeAux fuel r2 with
          | none => none
          | some l => some (Char.ofNat ((b - 192) * 64 + (c1 - 128)) :: l)
        else none
      | [] => none
    else if 224 ≤ b ∧ b ≤ 239 then
      match r with
      | c1 :: c2 :: r2 =>
        let lo1 := if b = 224 then 160 else 128
        let hi1 := if b = 237 then 159 else 191
        if (lo1 ≤ c1 ∧ c1 ≤ hi1) ∧ (128 ≤ c2 ∧ c2 ≤ 191) then
          match utf8DecodeAux fuel r2 with
          | none => none
          | some l =>
              some (Char.ofNat ((b - 224) * 4096 + (c1 - 128) * 64 + (c2 - 128)) :: l)
        else none
      | _ => none
    else if 240 ≤ b ∧ b ≤ 244 then
      match r with
      | c1 :: c2 :: c3 :: r2 =>
        let lo1 := if b = 240 then 144 else 128
        let hi1 := if b = 244 then 143 else 191
        if (lo1 ≤ c1 ∧ c1 ≤ hi1) ∧ (128 ≤ c2 ∧ c2 ≤ 191) ∧ (128 ≤ c3 ∧ c3 ≤ 191) then
          match utf8DecodeAux fuel r2 with
          | none => none
          | some l =>
              some (Char.ofNat ((b - 240) * 262144 + (c1 - 128) * 4096 +
                (c2 - 128) * 64 + (c3 - 128)) :: l)
        else none
      | _ => none
    else none

/-- `bytes.decode` with strict UTF-8, as `json.loads(b)` performs. -/
def utf8Decode (bs : List Nat) : Option String :=
  match utf8DecodeAux (bs.length + 1) bs with
  | none => none
  | some l => some (String.mk l)

/-- Python `t.split(".")`: split on every dot; the result is never empty
(`"".split(".") == [""]`). -/
def splitOnDot : List Char → List (List Char)
  | [] => [[]]
  | c :: r =>
    if c = '.' then [] :: splitOnDot r
    else
      match splitOnDot r with
      | g :: gs => (c :: g) :: gs
      | [] => [[c]]

/-! ## The agent state machine

`gather_agent.py` touches three files (`private.key`, `public.pem`,
`auth.json`) and a network.  We model the file system as a record, the two
network round trips of `authenticate` (and the one of each `api_*` call) as
oracle `Response` values supplied to the function, the Ed25519 signing
primitive as an opaque function argument `sign : bytes → bytes → bytes`
(its cryptographic behavior is irrelevant to every claim), and Python
exceptions as `Except Err`.  Observable side effects (network requests,
the credential-file write, `stderr` diagnostics) are collected in an
event trace. -/

/-- State of the `auth.json` file: missing, present but unreadable
(an I/O failure on open/read), or present with text content. -/
inductive FileSt where
  | absent : FileSt
  | unreadable : FileSt
  | content : String → FileSt

/-- The file system: `private.key` bytes, `public.pem` text and the
credential file.  `none` for a key file means missing or unreadable
(both raise out of `load_keys` identically for every claim). -/
structure FS where
  privKey : Option (List Nat)
  pubKey : Option String
  authFile : FileSt

/-- Python exceptions that can escape the modelled functions. -/
inductive Err where
  | fileNotFound : Err
  | ioError : Err
  | valueError : Err
  | httpError : Nat → String → Err
  | jsonDecodeError : Err
  | keyError : String → Err
  | typeError : Err
  | attributeError : Err
  | binasciiError : Err

/-- An HTTP response as the program observes it: status code and body text.
`resp.json()` parses the body; `resp.ok` / `raise_for_status` look at the
status. -/
structure Response where
  status : Nat
  body : String

/-- `requests` raises from `raise_for_status` exactly for 4xx/5xx statuses;
`resp.ok` is the negation of that condition. -/
def httpRaises (st : Nat) : Prop := 400 ≤ st ∧ st < 600

instance (st : Nat) : Decidable (httpRaises st) := by
  unfold httpRaises; infer_instance

/-- Observable effects, in program order. -/
inductive Ev where
  | loadKeys : Ev
  | postChallenge : String → Ev
  | postAuth : String → String → Ev
  | writeAuth : String → Ev
  | httpGet : String → Json → Ev
  | httpPost : String → Json → Json → Ev
  | httpPut : String → Json → Json → Ev
  | stderr : Nat → String → Ev

/-- The `stderr` diagnostics contained in a trace. -/
def stderrEvents (evs : List Ev) : List Ev :=
  evs.filter fun e =>
    match e with
    | .stderr _ _ => true
    | _ => false

/-- The events of a trace that are network requests. -/
def networkEvents (evs : List Ev) : List Ev :=
  evs.filter fun e =>
    match e with
    | .postChallenge _ => true
    | .postAuth _ _ => true
    | .httpGet _ _ => true
    | .httpPost _ _ _ => true
    | .httpPut _ _ _ => true
    | _ => false

/-- Errors the spec's taxonomy files under `KeyUnavailable` (missing or
corrupt local key material). -/
def Err.isKeyUnavailable : Err → Bool
  | .fileNotFound => true
  | .ioError => true
  | .valueError => true
  | _ => false

/-- `d[k]` on a Python value decoded from JSON: a `dict` yields the value or
`KeyError`; any non-`dict` yields `TypeError`. -/
def jIndex (j : Json) (k : String) : Except Err Json :=
  match j with
  | .obj kvs =>
    match kvs.lookup k with
    | some v => Except.ok v
    | none => Except.error (Err.keyError k)
  | _ => Except.error Err.typeError

/-- Python `str.isspace` on the ASCII range (the characters `str.strip()`
removes; the rarer Unicode whitespace is outside the model). -/
def isPyWs (c : Char) : Bool :=
  c == ' ' || c == '\t' || c == '\n' || c == '\r' ||
    c == Char.ofNat 11 || c == Char.ofNat 12

/-- Python `s.strip()`: drop leading and trailing whitespace. -/
def pyStrip (s : String) : String :=
  String.mk (((s.data.dropWhile isPyWs).reverse.dropWhile isPyWs).reverse)

/-- `load_keys()` (gather_agent.py lines 22–28): read `private.key`, build
the private key from its first 32 bytes (`Ed25519PrivateKey.from_private_bytes`
raises `ValueError` unless given exactly 32 bytes, so a shorter file fails
and longer files have their tail ignored), then read and `strip()`
`public.pem`. -/
def load_keys (fs : FS) : Except Err (List Nat × String) :=
  match fs.privKey with
  | none => Except.error Err.fileNotFound
  | some raw =>
    if raw.length < 32 then Except.error Err.valueError
    else
      match fs.pubKey with
      | none => Except.error Err.fileNotFound
      | some pem => Except.ok (raw.take 32, pyStrip pem)

/-- The claims-extraction chain of `get_token` (lines 66–68): take the
second dot-separated segment of the token, append `"=" * (4 - len % 4)`
(one to four pad characters), `base64.b64decode` it — the STANDARD alphabet,
not base64url — decode the bytes as UTF-8 and parse them as JSON. -/
def claimsOf (t : List Char) : Option Json :=
  match (splitOnDot t)[1]? with
  | none => none
  | some payload =>
    let padded := payload ++ List.replicate (4 - payload.length % 4) '='
    match pyB64decode (String.mk padded) with
    | none => none
    | some bytes =>
      match utf8Decode bytes with
      | none => none
      | some s => Json.loads s

/-- The guarded expiry check of `get_token` (lines 64–72): everything from
`token.split` to the comparison runs inside `try ... except Exception:
pass`, so any failure yields `none` (fall through to re-authentication)
and `some t` means the cached token `t` is returned.  A JSON boolean `exp`
participates in the comparison as a Python `bool`, i.e. as 0 or 1. -/
def tryClaimsToken (token : Json) (now : Int) : Option String :=
  match token with
  | .str t =>
    match claimsOf t.data with
    | some (.obj ckvs) =>
      match (ckvs.lookup "exp").getD (.num 0) with
      | .num e => if now + 120 < e then some t else none
      | .bool b => if now + 120 < (if b then (1 : Int) else 0) then some t else none
      | _ => none
    | _ => none
  | _ => none

/-- `authenticate()` (lines 30–56).  `chResp` and `aResp` are the responses
the two `requests.post` calls would observe; `sign` is the Ed25519 signing
primitive.  Returns the Python return value (`auth["token"]`, an arbitrary
JSON value), the resulting file system, and the event trace.  Note that the
successful response body is dumped to `auth.json` BEFORE `auth["token"]` is
read. -/
def authenticate (sign : List Nat → List Nat → List Nat) (fs : FS)
    (chResp aResp : Response) : Except Err Json × FS × List Ev :=
  match load_keys fs with
  | Except.error e => (Except.error e, fs, [Ev.loadKeys])
  | Except.ok (priv, pem) =>
    let evs := [Ev.loadKeys, Ev.postChallenge pem]
    if httpRaises chResp.status then
      (Except.error (Err.httpError chResp.status chResp.body), fs, evs)
    else
      match Json.loads chResp.body with
      | none => (Except.error Err.jsonDecodeError, fs, evs)
      | some ch =>
        match jIndex ch "nonce" with
        | Except.error e => (Except.error e, fs, evs)
        | Except.ok nonceJ =>
          match nonceJ with
          | .str nonceB64 =>
            match pyB64decode nonceB64 with
            | none => (Except.error Err.binasciiError, fs, evs)
            | some nonceBytes =>
              let sigB64 := String.mk (b64encode (sign priv nonceBytes))
              let evs := evs ++ [Ev.postAuth pem sigB64]
              if httpRaises aResp.status then
                (Except.error (Err.httpError aResp.status aResp.body), fs, evs)
              else
                match Json.loads aResp.body with
                | none => (Except.error Err.jsonDecodeError, fs, evs)
                | some auth =>
                  let written := Json.dumps auth
                  let fs2 := { fs with authFile := FileSt.content written }
                  let evs := evs ++ [Ev.writeAuth written]
                  match jIndex auth "token" with
                  | Except.error e => (Except.error e, fs2, evs)
                  | Except.ok tok => (Except.ok tok, fs2, evs)
          | _ => (Except.error Err.typeError, fs, evs)

/-- `get_token()` (lines 58–73).  If `auth.json` exists it is opened and
parsed OUTSIDE any exception handler, so an unreadable or malformed file
raises; `auth.get("token", "")` likewise raises `AttributeError` when the
parsed value is not a `dict`.  Only the claims check itself is guarded:
if it fails, or the file is missing, `authenticate()` runs. -/
def get_token (sign : List Nat → List Nat → List Nat) (fs : FS)
    (chResp aResp : Response) (now : Int) : Except Err Json × FS × List Ev :=
  match fs.authFile with
  | FileSt.absent => authenticate sign fs chResp aResp
  | FileSt.unreadable => (Except.error Err.ioError, fs, [])
  | FileSt.content s =>
    match Json.loads s with
    | none => (Except.error Err.jsonDecodeError, fs, [])
    | some auth =>
      match auth with
      | .obj kvs =>
        let token := (kvs.lookup "token").getD (.str "")
        match tryClaimsToken token now with
        | some t => (Except.ok (.str t), fs, [])
        | none => authenticate sign fs chResp aResp
      | _ => (Except.error Err.attributeError, fs, [])

/-- `api_get()` (lines 75–81): get a token, issue the GET, then
`raise_for_status` — with NO diagnostic printed on failure. -/
def api_get (sign : List Nat → List Nat → List Nat) (fs : FS)
    (chResp aResp : Response) (now : Int) (path : String) (resp : Response) :
    Except Err Json × FS × List Ev :=
  match get_token sign fs chResp aResp now with
  | (Except.error e, fs2, evs) => (Except.error e, fs2, evs)
  | (Except.ok tok, fs2, evs) =>
    let evs := evs ++ [Ev.httpGet path tok]
    if httpRaises resp.status then
      (Except.error (Err.httpError resp.status resp.body), fs2, evs)
    else
      match Json.loads resp.body with
      | none => (Except.error Err.jsonDecodeError, fs2, evs)
      | some j => (Except.ok j, fs2, evs)

/-- `api_post()` (lines 83–91): like `api_get`, but when `resp.ok` is false
(the same 4xx/5xx condition that `raise_for_status` checks) an
`ERROR status: body` line is printed to stderr before raising. -/
def api_post (sign : List Nat → List Nat → List Nat) (fs : FS)
    (chResp aResp : Response) (now : Int) (path : String) (data : Json)
    (resp : Response) : Except Err Json × FS × List Ev :=
  match get_token sign fs chResp aResp now with
  | (Except.error e, fs2, evs) => (Except.error e, fs2, evs)
  | (Except.ok tok, fs2, evs) =>
    let evs := evs ++ [Ev.httpPost path tok data]
    if httpRaises resp.status then
      (Except.error (Err.httpError resp.status resp.body), fs2,
        evs ++ [Ev.stderr resp.status resp.body])
    else
      match Json.loads resp.body with
      | none => (Except.error Err.jsonDecodeError, fs2, evs)
      | some j => (Except.ok j, fs2, evs)

/-- Python truthiness of a decoded JSON value, for `data or {}`. -/
def pyFalsy : Json → Bool
  | .null => true
  | .bool b => !b
  | .num n => n == 0
  | .str s => s.isEmpty
  | .arr l => l.isEmpty
  | .obj l => l.isEmpty

/-- The body `api_put` sends: `data or {}`. -/
def putBody (data : Option Json) : Json :=
  match data with
  | none => Json.obj []
  | some d => if pyFalsy d then Json.obj [] else d

/-- `api_put()` (lines 93–101): body defaults to the empty object when
`data` is `None` or falsy (`data or {}`); diagnostics as in `api_post`. -/
def api_put (sign : List Nat → List Nat → List Nat) (fs : FS)
    (chResp aResp : Response) (now : Int) (path : String) (data : Option Json)
    (resp : Response) : Except Err Json × FS × List Ev :=
  match get_token sign fs chResp aResp now with
  | (Except.error e, fs2, evs) => (Except.error e, fs2, evs)
  | (Except.ok tok, fs2, evs) =>
    let body := putBody data
    let evs := evs ++ [Ev.httpPut path tok body]
    if httpRaises resp.status then
      (Except.error (Err.httpError resp.status resp.body), fs2,
        evs ++ [Ev.stderr resp.status resp.body])
    else
      match Json.loads resp.body with
      | none => (Except.error Err.jsonDecodeError, fs2, evs)
      | some j => (Except.ok j, fs2, evs)

/-! ## Spec-side reference definitions

The specification (§4.4 step 2) describes the payload decode as
base64url.  The code uses the standard alphabet; to compare the two we
also define the base64url decoding the spec describes. -/

def urlTranslate (c : Char) : Char :=
  if c = '-' then '+' else if c = '_' then '/' else c

/-- Modelled from the spec: "decoding the middle (payload) segment of the
bearer token as base64url-encoded" — base64url decoding, i.e. the standard
decoding after translating `-`/`_` to `+`/`/` (exactly
`base64.urlsafe_b64decode`). -/
def specB64urlDecode (s : String) : Option (List Nat) :=
  pyB64decode (String.mk (s.data.map urlTranslate))

/-- Modelled from the spec: the claims extraction of §4.4 step 2 — middle
dot-separated segment, padded to a multiple of 4, decoded as
base64url-encoded JSON. -/
def specClaimsOf (t : List Char) : Option Json :=
  match (splitOnDot t)[1]? with
  | none => none
  | some payload =>
    let padded := payload ++ List.replicate (4 - payload.length % 4) '='
    match specB64urlDecode (String.mk padded) with
    | none => none
    | some bytes =>
      match utf8Decode bytes with
      | none => none
      | some s => Json.loads s

/-! ## Shared concrete fixtures (used by witnesses and counterexamples) -/

/-- A stand-in Ed25519 signer (no claim depends on signature bytes). -/
def sign0 : List Nat → List Nat → List Nat := fun _ _ => [1, 2]

/-- A token whose payload is the standard-base64 encoding of
`\x7b"exp":9999999999\x7d`. -/
def tok0 : String := "h.eyJleHAiOjk5OTk5OTk5OTl9.s"

/-- A token whose payload is the standard-base64 encoding of
`\x7b"exp":1000\x7d` (long expired for `now0`). -/
def tokExp : String := "h.eyJleHAiOjEwMDB9.s"

/-- A token whose payload is the base64url (not standard) encoding of
`\x7b"exp":9999999999,"a":"?"\x7d` — it contains a `_`. -/
def tokUrl : String := "h.eyJleHAiOjk5OTk5OTk5OTksImEiOiI_In0.s"

def cacheFile (t : String) : String :=
  Json.dumps (Json.obj [("token", Json.str t)])

def fsWith (c : FileSt) : FS :=
  ⟨some (List.replicate 40 7), some " PEM\n", c⟩

def ch0 : Response := ⟨200, "\x7b\"nonce\": \"AAAA\"\x7d"⟩

def aResp0 : Response := ⟨200, "\x7b\"token\": \"T\"\x7d"⟩

def now0 : Int := 1000000

/-! ## Claims -/

/-- C1 (counterexample). The claim says a malformed credential file is
treated as absent — `get_token` never raises from the cache read and
proceeds to fresh authentication.  In the code `json.load` runs OUTSIDE the
`try` block: with the file content `"\x7b"` (not valid JSON), `get_token`
raises `JSONDecodeError`, does not authenticate, and issues no request. -/
theorem c1_malformed_cache_raises :
    get_token sign0 (fsWith (FileSt.content "\x7b")) ch0 aResp0 now0 =
      (Except.error Err.jsonDecodeError, fsWith (FileSt.content "\x7b"), []) := by
  rfl

/-- C1 (amended). An absent credential file is treated as absent and
`get_token` runs the fresh authentication; but a present-and-malformed file
makes `get_token` raise the JSON parse error, and an unreadable file makes
it raise the I/O error — the cache read is not exception-guarded (only the
claims check is). -/
theorem c1_cache_read_amended (sign : List Nat → List Nat → List Nat)
    (fs : FS) (ch a : Response) (now : Int) :
    (fs.authFile = FileSt.absent →
      get_token sign fs ch a now = authenticate sign fs ch a) ∧
    (∀ s, fs.authFile = FileSt.content s → Json.loads s = none →
      get_token sign fs ch a now = (Except.error Err.jsonDecodeError, fs, [])) ∧
    (fs.authFile = FileSt.unreadable →
      get_token sign fs ch a now = (Except.error Err.ioError, fs, [])) := by
  refine ⟨fun h => ?_, fun s h hs => ?_, fun h => ?_⟩
  · simp [get_token, h]
  · simp [get_token, h, hs]
  · simp [get_token, h]

/-- C1 (witness for the amended theorem), at the malformed content `"("`. -/
theorem c1_cache_read_amended_witness :
    get_token sign0 (fsWith (FileSt.content "(")) ch0 aResp0 now0 =
      (Except.error Err.jsonDecodeError, fsWith (FileSt.content "("), []) :=
  (c1_cache_read_amended sign0 (fsWith (FileSt.content "(")) ch0 aResp0 now0).2.1
    "(" rfl rfl

/-- C2 (counterexample). The claim says that when both round trips succeed
but the authenticate body lacks `token`, the credential file is left
unmodified.  In the code `json.dump(auth, f)` runs BEFORE `auth["token"]`:
with prior file content `"OLD"` and authenticate body `"\x7b\x7d"`, the call
fails with `KeyError` — but the file has been overwritten with `"\x7b\x7d"`. -/
theorem c2_tokenless_body_overwrites_file :
    authenticate sign0 (fsWith (FileSt.content "OLD")) ch0 ⟨200, "\x7b\x7d"⟩ =
      (Except.error (Err.keyError "token"),
        fsWith (FileSt.content "\x7b\x7d"),
        [Ev.loadKeys, Ev.postChallenge "PEM", Ev.postAuth "PEM" "AQI=",
         Ev.writeAuth "\x7b\x7d"]) ∧
    FileSt.content "OLD" ≠ FileSt.content "\x7b\x7d" := by
  exact ⟨rfl, by simp⟩

/-- C2 (amended). When both round trips succeed but the authenticate body
lacks a `token` field, the operation fails with the missing-key error — but
only AFTER the persisted credential file has been overwritten with the
token-less response body. -/
theorem c2_tokenless_body_amended (sign : List Nat → List Nat → List Nat)
    (fs : FS) (ch a : Response) (priv : List Nat) (pem : String) (chJ : Json)
    (nb : String) (nbytes : List Nat) (auth : Json)
    (hk : load_keys fs = Except.ok (priv, pem)) (hc : ¬ httpRaises ch.status)
    (hcb : Json.loads ch.body = some chJ)
    (hn : jIndex chJ "nonce" = Except.ok (Json.str nb))
    (hb : pyB64decode nb = some nbytes) (ha : ¬ httpRaises a.status)
    (hab : Json.loads a.body = some auth)
    (ht : jIndex auth "token" = Except.error (Err.keyError "token")) :
    authenticate sign fs ch a =
      (Except.error (Err.keyError "token"),
        { fs with authFile := FileSt.content (Json.dumps auth) },
        [Ev.loadKeys, Ev.postChallenge pem,
         Ev.postAuth pem (String.mk (b64encode (sign priv nbytes))),
         Ev.writeAuth (Json.dumps auth)]) := by
  simp [authenticate, hk, hc, hcb, hn, hb, ha, hab, ht]

/-- C2 (witness for the amended theorem). -/
theorem c2_tokenless_body_amended_witness :
    authenticate sign0 (fsWith (FileSt.content "OLD")) ch0 ⟨200, "\x7b\"x\": 1\x7d"⟩ =
      (Except.error (Err.keyError "token"),
        { fsWith (FileSt.content "OLD") with
            authFile := FileSt.content (Json.dumps (Json.obj [("x", Json.num 1)])) },
        [Ev.loadKeys, Ev.postChallenge "PEM",
         Ev.postAuth "PEM" (String.mk (b64encode (sign0 [7, 7] [0, 0, 0]))),
         Ev.writeAuth (Json.dumps (Json.obj [("x", Json.num 1)]))]) := by
  have h := c2_tokenless_body_amended sign0 (fsWith (FileSt.content "OLD")) ch0
    ⟨200, "\x7b\"x\": 1\x7d"⟩ (List.replicate 32 7) "PEM"
    (Json.obj [("nonce", Json.str "AAAA")]) "AAAA" [0, 0, 0]
    (Json.obj [("x", Json.num 1)]) rfl (by decide) rfl rfl rfl (by decide) rfl rfl
  simpa using h

/-- C3 (counterexample). The claim says every API call surfaces the status
and body as diagnostic output before failing.  `api_get` prints nothing: on
a 403 it raises with the status and body, and its trace contains no stderr
event. -/
theorem c3_get_no_diagnostic :
    api_get sign0 (fsWith (FileSt.content (cacheFile tok0))) ch0 aResp0 now0
        "/api/channels" ⟨403, "forbidden"⟩ =
      (Except.error (Err.httpError 403 "forbidden"),
        fsWith (FileSt.content (cacheFile tok0)),
        [Ev.httpGet "/api/channels" (Json.str tok0)]) ∧
    stderrEvents [Ev.httpGet "/api/channels" (Json.str tok0)] = [] := by
  exact ⟨rfl, rfl⟩

/-- C3 (amended). On a 4xx/5xx response the failure (with that status and
body) is always propagated, for GET, POST and PUT alike; but only POST and
PUT print the `ERROR status: body` diagnostic — GET fails silently. -/
theorem c3_diagnostics_amended (sign : List Nat → List Nat → List Nat)
    (fs : FS) (ch a : Response) (now : Int) (path : String) (data : Json)
    (odata : Option Json) (resp : Response) (tok : Json) (fs2 : FS)
    (evs : List Ev)
    (htok : get_token sign fs ch a now = (Except.ok tok, fs2, evs))
    (hst : httpRaises resp.status) :
    api_get sign fs ch a now path resp =
      (Except.error (Err.httpError resp.status resp.body), fs2,
        evs ++ [Ev.httpGet path tok]) ∧
    stderrEvents [Ev.httpGet path tok] = [] ∧
    api_post sign fs ch a now path data resp =
      (Except.error (Err.httpError resp.status resp.body), fs2,
        (evs ++ [Ev.httpPost path tok data]) ++
          [Ev.stderr resp.status resp.body]) ∧
    api_put sign fs ch a now path odata resp =
      (Except.error (Err.httpError resp.status resp.body), fs2,
        (evs ++ [Ev.httpPut path tok (putBody odata)]) ++
          [Ev.stderr resp.status resp.body]) := by
  refine ⟨?_, rfl, ?_, ?_⟩
  · simp [api_get, htok, hst]
  · simp [api_post, htok, hst]
  · simp [api_put, htok, hst]

/-- C3 (witness for the amended theorem), at a 500 PUT. -/
theorem c3_diagnostics_amended_witness :
    api_put sign0 (fsWith (FileSt.content (cacheFile tok0))) ch0 aResp0 now0
        "/api/balance" none ⟨500, "oops"⟩ =
      (Except.error (Err.httpError 500 "oops"),
        fsWith (FileSt.content (cacheFile tok0)),
        ([] ++ [Ev.httpPut "/api/balance" (Json.str tok0) (putBody none)]) ++
          [Ev.stderr 500 "oops"]) :=
  (c3_diagnostics_amended sign0 (fsWith (FileSt.content (cacheFile tok0))) ch0
    aResp0 now0 "/api/balance" (Json.obj []) none ⟨500, "oops"⟩
    (Json.str tok0) (fsWith (FileSt.content (cacheFile tok0))) [] rfl
    (by decide)).2.2.2

/-- C4 (confirmed). For every cached credential whose token decodes (via the
program's claims-extraction chain `claimsOf`) to claims with
`exp > now + 120`, `get_token` returns exactly the cached token string, the
file system is untouched, and the trace is empty — in particular zero
network calls and no key load. -/
theorem c4_fresh_cached_token_returned (sign : List Nat → List Nat → List Nat)
    (fs : FS) (ch a : Response) (now : Int) (s : String)
    (kvs : List (String × Json)) (t : String) (ckvs : List (String × Json))
    (e : Int)
    (hf : fs.authFile = FileSt.content s)
    (hp : Json.loads s = some (Json.obj kvs))
    (ht : kvs.lookup "token" = some (Json.str t))
    (hc : claimsOf t.data = some (Json.obj ckvs))
    (he : ckvs.lookup "exp" = some (Json.num e))
    (hfresh : now + 120 < e) :
    get_token sign fs ch a now = (Except.ok (Json.str t), fs, []) ∧
    networkEvents (get_token sign fs ch a now).2.2 = [] := by
  have hclaims : tryClaimsToken (Json.str t) now = some t := by
    simp [tryClaimsToken, hc, he, hfresh]
  have hres : get_token sign fs ch a now = (Except.ok (Json.str t), fs, []) := by
    simp [get_token, hf, hp, ht, hclaims]
  exact ⟨hres, by simp [hres, networkEvents]⟩

/-- C4 (witness): the cached token with payload `\x7b"exp":9999999999\x7d`
at `now = 1000000`. -/
theorem c4_fresh_cached_token_returned_witness :
    get_token sign0 (fsWith (FileSt.content (cacheFile tok0))) ch0 aResp0 now0 =
      (Except.ok (Json.str tok0), fsWith (FileSt.content (cacheFile tok0)), []) ∧
    networkEvents (get_token sign0 (fsWith (FileSt.content (cacheFile tok0)))
        ch0 aResp0 now0).2.2 = [] :=
  c4_fresh_cached_token_returned sign0 (fsWith (FileSt.content (cacheFile tok0)))
    ch0 aResp0 now0 (cacheFile tok0) [("token", Json.str tok0)] tok0
    [("exp", Json.num 9999999999)] 9999999999 rfl rfl rfl rfl rfl (by decide)

/-- C5 (confirmed). For every cached credential whose claims are
unparseable, lack `exp`, or have `exp ≤ now + 120` (boundary included),
`get_token` runs the full `authenticate` flow; and whenever the keys are
present and the two responses are well-formed, that flow's trace is exactly
key load, challenge POST of the public key, authenticate POST of the signed
nonce, and the credential write. -/
theorem c5_stale_cache_triggers_cycle (sign : List Nat → List Nat → List Nat)
    (fs : FS) (ch a : Response) (now : Int) (s : String)
    (kvs : List (String × Json)) (t : String)
    (hnow : 0 ≤ now)
    (hf : fs.authFile = FileSt.content s)
    (hp : Json.loads s = some (Json.obj kvs))
    (ht : (kvs.lookup "token").getD (Json.str "") = Json.str t)
    (hstale : claimsOf t.data = none ∨
      (∃ ckvs, claimsOf t.data = some (Json.obj ckvs) ∧
        ckvs.lookup "exp" = none) ∨
      (∃ ckvs e, claimsOf t.data = some (Json.obj ckvs) ∧
        ckvs.lookup "exp" = some (Json.num e) ∧ e ≤ now + 120)) :
    get_token sign fs ch a now = authenticate sign fs ch a ∧
    (∀ priv pem chJ nb nbytes auth,
      load_keys fs = Except.ok (priv, pem) → ¬ httpRaises ch.status →
      Json.loads ch.body = some chJ →
      jIndex chJ "nonce" = Except.ok (Json.str nb) →
      pyB64decode nb = some nbytes → ¬ httpRaises a.status →
      Json.loads a.body = some auth →
      (get_token sign fs ch a now).2.2 =
        [Ev.loadKeys, Ev.postChallenge pem,
         Ev.postAuth pem (String.mk (b64encode (sign priv nbytes))),
         Ev.writeAuth (Json.dumps auth)]) := by
  have hclaims : tryClaimsToken (Json.str t) now = none := by
    rcases hstale with h | ⟨ckvs, h, he⟩ | ⟨ckvs, e, h, he, hle⟩
    · simp [tryClaimsToken, h]
    · simp [tryClaimsToken, h, he]
      omega
    · simp [tryClaimsToken, h, he]
      omega
  have hgt : get_token sign fs ch a now = authenticate sign fs ch a := by
    simp [get_token, hf, hp, ht, hclaims]
  refine ⟨hgt, fun priv pem chJ nb nbytes auth hk hc hcb hn hb ha hab => ?_⟩
  rw [hgt]
  have : authenticate sign fs ch a =
      (match jIndex auth "token" with
        | Except.error e =>
            (Except.error e,
              { fs with authFile := FileSt.content (Json.dumps auth) },
              [Ev.loadKeys, Ev.postChallenge pem,
               Ev.postAuth pem (String.mk (b64encode (sign priv nbytes))),
               Ev.writeAuth (Json.dumps auth)])
        | Except.ok tk =>
            (Except.ok tk,
              { fs with authFile := FileSt.content (Json.dumps auth) },
              [Ev.loadKeys, Ev.postChallenge pem,
               Ev.postAuth pem (String.mk (b64encode (sign priv nbytes))),
               Ev.writeAuth (Json.dumps auth)])) := by
    simp [authenticate, hk, hc, hcb, hn, hb, ha, hab]
  rw [this]
  cases jIndex auth "token" <;> rfl

/-- C5 (witness): the cached token with payload `\x7b"exp":1000\x7d` at
`now = 1000000` — expired, so the full cycle runs. -/
theorem c5_stale_cache_triggers_cycle_witness :
    get_token sign0 (fsWith (FileSt.content (cacheFile tokExp))) ch0 aResp0 now0 =
      authenticate sign0 (fsWith (FileSt.content (cacheFile tokExp))) ch0 aResp0 ∧
    (get_token sign0 (fsWith (FileSt.content (cacheFile tokExp))) ch0 aResp0
        now0).2.2 =
      [Ev.loadKeys, Ev.postChallenge "PEM",
       Ev.postAuth "PEM" (String.mk (b64encode (sign0 (List.replicate 32 7) [0, 0, 0]))),
       Ev.writeAuth (Json.dumps (Json.obj [("token", Json.str "T")]))] := by
  have h := c5_stale_cache_triggers_cycle sign0
    (fsWith (FileSt.content (cacheFile tokExp))) ch0 aResp0 now0
    (cacheFile tokExp) [("token", Json.str tokExp)] tokExp (by decide) rfl rfl rfl
    (Or.inr (Or.inr ⟨[("exp", Json.num 1000)], 1000, rfl, rfl, by decide⟩))
  exact ⟨h.1, h.2 (List.replicate 32 7) "PEM" (Json.obj [("nonce", Json.str "AAAA")])
    "AAAA" [0, 0, 0] (Json.obj [("token", Json.str "T")]) rfl (by decide) rfl rfl
    rfl (by decide) rfl⟩

/-- C6 (counterexample). The claim says any non-2xx challenge status makes
`authenticate` fail with no credential write.  `raise_for_status` only
raises on 4xx/5xx: with a 304 challenge response carrying a nonce body, the
run proceeds, succeeds, and WRITES the credential file. -/
theorem c6_non2xx_304_proceeds :
    authenticate sign0 (fsWith (FileSt.content "OLD")) ⟨304, "\x7b\"nonce\": \"AAAA\"\x7d"⟩ aResp0 =
      (Except.ok (Json.str "T"),
        fsWith (FileSt.content (Json.dumps (Json.obj [("token", Json.str "T")]))),
        [Ev.loadKeys, Ev.postChallenge "PEM", Ev.postAuth "PEM" "AQI=",
         Ev.writeAuth (Json.dumps (Json.obj [("token", Json.str "T")]))]) ∧
    ¬ (200 ≤ 304 ∧ 304 ≤ 299) := by
  exact ⟨rfl, by decide⟩

/-- C6 (amended). If the challenge endpoint returns a 4xx or 5xx status
(the statuses `raise_for_status` treats as errors), `authenticate` fails
with that status and body, the file system is unchanged, and the trace
contains no credential write. -/
theorem c6_challenge_4xx5xx_amended (sign : List Nat → List Nat → List Nat)
    (fs : FS) (ch a : Response) (priv : List Nat) (pem : String)
    (hk : load_keys fs = Except.ok (priv, pem))
    (hst : httpRaises ch.status) :
    authenticate sign fs ch a =
      (Except.error (Err.httpError ch.status ch.body), fs,
        [Ev.loadKeys, Ev.postChallenge pem]) := by
  simp [authenticate, hk, hst]

/-- C6 (witness for the amended theorem), at a 403 challenge response. -/
theorem c6_challenge_4xx5xx_amended_witness :
    authenticate sign0 (fsWith (FileSt.content "OLD")) ⟨403, "denied"⟩ aResp0 =
      (Except.error (Err.httpError 403 "denied"), fsWith (FileSt.content "OLD"),
        [Ev.loadKeys, Ev.postChallenge "PEM"]) :=
  c6_challenge_4xx5xx_amended sign0 (fsWith (FileSt.content "OLD"))
    ⟨403, "denied"⟩ aResp0 (List.replicate 32 7) "PEM" rfl (by decide)

/-- C7 (counterexample). The claim says the payload segment is decoded as
base64url.  The code calls `base64.b64decode` with the STANDARD alphabet:
for the token whose payload is the base64url encoding of
`\x7b"exp":9999999999,"a":"?"\x7d` (it contains `_`), the spec's decode
yields fresh claims — yet the code's chain fails (the `_` is discarded,
leaving a bad quad), the token is treated as invalid, and `get_token`
re-authenticates instead of returning it. -/
theorem c7_base64url_payload_rejected :
    specClaimsOf tokUrl.data =
      some (Json.obj [("exp", Json.num 9999999999), ("a", Json.str "?")]) ∧
    claimsOf tokUrl.data = none ∧
    tryClaimsToken (Json.str tokUrl) now0 = none ∧
    get_token sign0 (fsWith (FileSt.content (cacheFile tokUrl))) ch0 aResp0 now0 =
      authenticate sign0 (fsWith (FileSt.content (cacheFile tokUrl))) ch0 aResp0 := by
  exact ⟨rfl, rfl, rfl, rfl⟩

/-- C7 (amended). The expiry check extracts claims by decoding the middle
dot-separated segment with STANDARD-alphabet base64 (`claimsOf`; base64url
payloads containing `-` or `_` therefore fail to decode), after appending
`"=" * (4 - len % 4)` pad characters; and for every cached object the
guarded check never raises: `get_token` either returns the cached token
string or falls through to `authenticate`. -/
theorem c7_payload_decode_amended (sign : List Nat → List Nat → List Nat)
    (fs : FS) (ch a : Response) (now : Int) (s : String)
    (kvs : List (String × Json))
    (hf : fs.authFile = FileSt.content s)
    (hp : Json.loads s = some (Json.obj kvs)) :
    (∃ t, tryClaimsToken ((kvs.lookup "token").getD (Json.str "")) now = some t ∧
      get_token sign fs ch a now = (Except.ok (Json.str t), fs, [])) ∨
    (tryClaimsToken ((kvs.lookup "token").getD (Json.str "")) now = none ∧
      get_token sign fs ch a now = authenticate sign fs ch a) := by
  cases h : tryClaimsToken ((kvs.lookup "token").getD (Json.str "")) now with
  | none =>
    right
    exact ⟨rfl, by simp [get_token, hf, hp, h]⟩
  | some t =>
    left
    exact ⟨t, rfl, by simp [get_token, hf, hp, h]⟩

/-- C7 (witness for the amended theorem), at the base64url-payload token:
the check fails silently and the fall-through branch is taken. -/
theorem c7_payload_decode_amended_witness :
    (∃ t, tryClaimsToken (([("token", Json.str tokUrl)].lookup "token").getD
        (Json.str "")) now0 = some t ∧
      get_token sign0 (fsWith (FileSt.content (cacheFile tokUrl))) ch0 aResp0 now0 =
        (Except.ok (Json.str t), fsWith (FileSt.content (cacheFile tokUrl)), [])) ∨
    (tryClaimsToken (([("token", Json.str tokUrl)].lookup "token").getD
        (Json.str "")) now0 = none ∧
      get_token sign0 (fsWith (FileSt.content (cacheFile tokUrl))) ch0 aResp0 now0 =
        authenticate sign0 (fsWith (FileSt.content (cacheFile tokUrl))) ch0 aResp0) :=
  c7_payload_decode_amended sign0 (fsWith (FileSt.content (cacheFile tokUrl)))
    ch0 aResp0 now0 (cacheFile tokUrl) [("token", Json.str tokUrl)] rfl rfl

/-- C8 (confirmed). `load_keys` builds the private key from exactly the
first 32 bytes of `private.key` (trailing bytes ignored); a missing key
file raises, as does a private-key file shorter than 32 bytes — all these
failures are in the spec's `KeyUnavailable` class; and the public key is
the file content stripped of surrounding whitespace, used verbatim. -/
theorem c8_load_keys_contract :
    (∀ raw32 extra pem af, (raw32 : List Nat).length = 32 →
      load_keys ⟨some (raw32 ++ extra), some pem, af⟩ =
        Except.ok (raw32, pyStrip pem)) ∧
    (∀ pub af, load_keys ⟨none, pub, af⟩ = Except.error Err.fileNotFound ∧
      Err.fileNotFound.isKeyUnavailable = true) ∧
    (∀ raw af, 32 ≤ (raw : List Nat).length →
      load_keys ⟨some raw, none, af⟩ = Except.error Err.fileNotFound) ∧
    (∀ raw pub af, (raw : List Nat).length < 32 →
      load_keys ⟨some raw, pub, af⟩ = Except.error Err.valueError ∧
        Err.valueError.isKeyUnavailable = true) := by
  refine ⟨fun raw32 extra pem af h => ?_, fun pub af => ⟨rfl, rfl⟩,
    fun raw af h => ?_, fun raw pub af h => ⟨?_, rfl⟩⟩
  · have hlen : ¬ (raw32 ++ extra).length < 32 := by
      simp [List.length_append, h]
    have htake : (raw32 ++ extra).take 32 = raw32 := by
      rw [List.take_append_eq_append_take, h]
      simp [← h]
    simp [load_keys, hlen, htake]
    omega
  · have hlen : ¬ raw.length < 32 := by omega
    simp [load_keys, hlen]
  · simp [load_keys, h]

/-- C8 (witness): a 40-byte private-key file yields its first 32 bytes and
the stripped public key; a 31-byte file fails. -/
theorem c8_load_keys_contract_witness :
    load_keys ⟨some (List.replicate 32 7 ++ List.replicate 8 9), some " PEM\n",
        FileSt.absent⟩ =
      Except.ok (List.replicate 32 7, pyStrip " PEM\n") ∧
    load_keys ⟨some (List.replicate 31 7), some " PEM\n", FileSt.absent⟩ =
      Except.error Err.valueError := by
  constructor
  · exact (c8_load_keys_contract).1 (List.replicate 32 7) (List.replicate 8 9)
      " PEM\n" FileSt.absent (by decide)
  · exact ((c8_load_keys_contract).2.2.2 (List.replicate 31 7) (some " PEM\n")
      FileSt.absent (by decide)).1

/-- C10 (counterexample). The implicit claim says any valid-JSON credential
file without a `token` key is handled without raising.  If the file parses
to a non-`dict` — `"[]"` is valid JSON with no `token` key —
`auth.get("token", "")` raises `AttributeError`, and no authentication
happens. -/
theorem c10_json_array_cache_raises :
    get_token sign0 (fsWith (FileSt.content "[]")) ch0 aResp0 now0 =
      (Except.error Err.attributeError, fsWith (FileSt.content "[]"), []) := by
  rfl

/-- C10 (amended). For every credential file that parses to a JSON OBJECT
with no `token` key, `get_token` does not raise: `auth.get` substitutes the
empty string, the guarded claims check fails silently, and the full
re-authentication runs exactly as in the absent-file case. -/
theorem c10_tokenless_object_amended (sign : List Nat → List Nat → List Nat)
    (fs : FS) (ch a : Response) (now : Int) (s : String)
    (kvs : List (String × Json))
    (hf : fs.authFile = FileSt.content s)
    (hp : Json.loads s = some (Json.obj kvs))
    (ht : kvs.lookup "token" = none) :
    get_token sign fs ch a now = authenticate sign fs ch a := by
  have hclaims : tryClaimsToken (Json.str "") now = none := rfl
  simp [get_token, hf, hp, ht, hclaims]

/-- C10 (witness for the amended theorem), at the file `\x7b"a": 1\x7d`. -/
theorem c10_tokenless_object_amended_witness :
    get_token sign0 (fsWith (FileSt.content "\x7b\"a\": 1\x7d")) ch0 aResp0 now0 =
      authenticate sign0 (fsWith (FileSt.content "\x7b\"a\": 1\x7d")) ch0 aResp0 :=
  c10_tokenless_object_amended sign0 (fsWith (FileSt.content "\x7b\"a\": 1\x7d"))
    ch0 aResp0 now0 "\x7b\"a\": 1\x7d" [("a", Json.num 1)] rfl rfl rfl

/-! ## Round-trip: `json.loads (json.dumps j) = j`

Python `dict`s cannot hold duplicate keys, so every value `json.dump` is
given has pairwise-distinct keys in each object; `wfB` states exactly
that.  The development below proves that parsing the printed form of such
a value returns it unchanged. -/

/-- Membership of a key in a key list. -/
def keyElem (k : String) : List String → Bool
  | [] => false
  | a :: r => (a == k) || keyElem k r

/-- `true` iff the keys are pairwise distinct. -/
def nodupKeys : List String → Bool
  | [] => true
  | k :: r => (!(keyElem k r)) && nodupKeys r

mutual

/-- Well-formedness of a modelled JSON value: every object has pairwise
distinct keys (Python `dict` invariant). -/
def wfB : Json → Bool
  | .arr l => wfElems l
  | .obj kvs => nodupKeys (kvs.map Prod.fst) && wfFields kvs
  | _ => true

def wfElems : List Json → Bool
  | [] => true
  | x :: xs => wfB x && wfElems xs

def wfFields : List (String × Json) → Bool
  | [] => true
  | kv :: kvs => wfB kv.2 && wfFields kvs

end

mutual

/-- Parser fuel sufficient for a value (one unit per `pVal`/`pFields`/
`pElems` invocation). -/
def fuelV : Json → Nat
  | .arr [] => 1
  | .arr (x :: xs) => 1 + fuelE (x :: xs)
  | .obj [] => 1
  | .obj (kv :: kvs) => 1 + fuelF (kv :: kvs)
  | _ => 1

def fuelE : List Json → Nat
  | [] => 0
  | x :: xs => 1 + fuelV x + fuelE xs

def fuelF : List (String × Json) → Nat
  | [] => 0
  | kv :: kvs => 1 + fuelV kv.2 + fuelF kvs

end

/-- `rest` does not begin with a decimal digit (the follow-set condition a
number literal needs, since the parser munches digits maximally). -/
def headNotDigit (rest : List Char) : Prop :=
  ∀ c, rest.head? = some c → isDigitChar c = false

theorem headNotDigit_nil : headNotDigit [] := by
  intro c h
  simp at h

theorem headNotDigit_cons {c : Char} {l : List Char}
    (h : isDigitChar c = false) : headNotDigit (c :: l) := by
  intro d hd
  simp at hd
  rw [← hd]
  exact h

theorem skipWs_cons_not_ws {c : Char} {l : List Char} (h : isWsChar c = false) :
    skipWs (c :: l) = c :: l := by
  simp [skipWs, List.dropWhile_cons, h]

theorem skipWs_replicate_space (n : Nat) (l : List Char) :
    skipWs (List.replicate n ' ' ++ l) = skipWs l := by
  induction n with
  | zero => simp
  | succ m ih =>
    simp only [List.replicate_succ, List.cons_append]
    simp [skipWs, List.dropWhile_cons, isWsChar]

theorem skipWs_nlInd (n : Nat) (l : List Char) :
    skipWs (nlInd n ++ l) = skipWs l := by
  simp only [nlInd, List.cons_append]
  simp [skipWs, List.dropWhile_cons, isWsChar]

theorem skipWs_space (l : List Char) : skipWs (' ' :: l) = skipWs l := by
  simp [skipWs, List.dropWhile_cons, isWsChar]

/-- `pVal` first skips whitespace, so a whitespace prefix is irrelevant. -/
theorem pVal_ws_front (fuel : Nat) (w cs : List Char)
    (h : skipWs (w ++ cs) = skipWs cs) : pVal fuel (w ++ cs) = pVal fuel cs := by
  cases fuel with
  | zero => rfl
  | succ f => simp only [pVal, h]

theorem digit_bounds {c : Char} (h : isDigitChar c = true) :
    48 ≤ c.toNat ∧ c.toNat ≤ 57 := by
  simpa [isDigitChar] using h

theorem digit_not_ws {c : Char} (h : isDigitChar c = true) :
    isWsChar c = false := by
  have hb := digit_bounds h
  have h1 : c ≠ ' ' := by rintro rfl; exact absurd hb (by decide)
  have h2 : c ≠ '\t' := by rintro rfl; exact absurd hb (by decide)
  have h3 : c ≠ '\n' := by rintro rfl; exact absurd hb (by decide)
  have h4 : c ≠ '\r' := by rintro rfl; exact absurd hb (by decide)
  simp [isWsChar, h1, h2, h3, h4]

theorem digit_ne {c : Char} (h : isDigitChar c = true) (d : Char)
    (hd : 58 ≤ d.toNat ∨ d.toNat ≤ 47) : c ≠ d := by
  have hb := digit_bounds h
  rintro rfl
  omega

theorem hexDigitChar_isHex {d : Nat} (h : d < 16) :
    isHexChar (hexDigitChar d) = true := by
  interval_cases d <;> decide

theorem hexVal_hexDigitChar {d : Nat} (h : d < 16) :
    hexVal (hexDigitChar d) = d := by
  interval_cases d <;> decide

theorem hex4_value {n : Nat} (h : n < 65536) :
    hexVal (hexDigitChar (n / 4096 % 16)) * 4096 +
      hexVal (hexDigitChar (n / 256 % 16)) * 256 +
      hexVal (hexDigitChar (n / 16 % 16)) * 16 +
      hexVal (hexDigitChar (n % 16)) = n := by
  rw [hexVal_hexDigitChar (Nat.mod_lt _ (by omega)),
    hexVal_hexDigitChar (Nat.mod_lt _ (by omega)),
    hexVal_hexDigitChar (Nat.mod_lt _ (by omega)),
    hexVal_hexDigitChar (Nat.mod_lt _ (by omega))]
  omega

theorem hex4_isHex (n : Nat) :
    isHexChar (hexDigitChar (n / 4096 % 16)) = true ∧
    isHexChar (hexDigitChar (n / 256 % 16)) = true ∧
    isHexChar (hexDigitChar (n / 16 % 16)) = true ∧
    isHexChar (hexDigitChar (n % 16)) = true :=
  ⟨hexDigitChar_isHex (Nat.mod_lt _ (by omega)),
   hexDigitChar_isHex (Nat.mod_lt _ (by omega)),
   hexDigitChar_isHex (Nat.mod_lt _ (by omega)),
   hexDigitChar_isHex (Nat.mod_lt _ (by omega))⟩

/-- `pEsc` on a printed `\uXXXX` escape of a non-surrogate scalar below
`0x10000`. -/
theorem pEsc_u {n : Nat} (h16 : n < 65536) (hs : ¬ (55296 ≤ n ∧ n ≤ 57343))
    (rest : List Char) :
    pEsc ('u' :: (hex4 n ++ rest)) = some (Char.ofNat n, rest) := by
  obtain ⟨i1, i2, i3, i4⟩ := hex4_isHex n
  simp only [hex4, List.cons_append, List.nil_append]
  simp only [pEsc]
  simp +decide only [i1, i2, i3, i4, if_false, if_true, Bool.and_self]
  rw [hex4_value h16]
  rw [if_neg (by omega), if_neg (by omega)]

/-- `pEsc` on a printed surrogate-pair escape of a scalar at or above
`0x10000`. -/
theorem pEsc_pair {n : Nat} (h1 : 65536 ≤ n) (h2 : n < 1114112)
    (rest : List Char) :
    pEsc ('u' :: (hex4 (55296 + (n - 65536) / 1024) ++
      (backslashC :: 'u' :: (hex4 (56320 + (n - 65536) % 1024) ++ rest)))) =
      some (Char.ofNat n, rest) := by
  obtain ⟨i1, i2, i3, i4⟩ := hex4_isHex (55296 + (n - 65536) / 1024)
  obtain ⟨j1, j2, j3, j4⟩ := hex4_isHex (56320 + (n - 65536) % 1024)
  have hhi : 55296 + (n - 65536) / 1024 < 65536 := by omega
  have hlo : 56320 + (n - 65536) % 1024 < 65536 := by
    have := Nat.mod_lt (n - 65536) (y := 1024) (by omega)
    omega
  simp only [hex4, List.cons_append, List.nil_append]
  simp only [pEsc]
  simp +decide only [i1, i2, i3, i4, j1, j2, j3, j4, if_false, if_true,
    Bool.and_self, true_and, and_true]
  rw [hex4_value hhi, hex4_value hlo]
  have hrange : 55296 ≤ 55296 + (n - 65536) / 1024 ∧
      55296 + (n - 65536) / 1024 ≤ 56319 := by
    have : (n - 65536) / 1024 < 1024 := by omega
    omega
  rw [if_pos hrange]
  have hlor : 56320 ≤ 56320 + (n - 65536) % 1024 ∧
      56320 + (n - 65536) % 1024 ≤ 57343 := by
    have := Nat.mod_lt (n - 65536) (y := 1024) (by omega)
    omega
  rw [if_pos hlor]
  have harith : 65536 + (55296 + (n - 65536) / 1024 - 55296) * 1024 +
      (56320 + (n - 65536) % 1024 - 56320) = n := by omega
  rw [harith]

/-- The valid-scalar property of a `Char`, in `Nat` form. -/
theorem char_valid_nat (c : Char) :
    c.toNat < 55296 ∨ (57343 < c.toNat ∧ c.toNat < 1114112) :=
  c.valid

/-- One guarded escape step of `pStrBody`. -/
theorem pStrBody_step_esc (f : Nat) (c : Char) (suffix tail l rest : List Char)
    (hesc : pEsc (suffix ++ tail) = some (c, tail))
    (hrec : pStrBody f tail = some (l, rest)) :
    pStrBody (f + 1) (backslashC :: (suffix ++ tail)) = some (c :: l, rest) := by
  simp only [pStrBody]
  rw [if_neg (by decide)]
  simp only [if_true, hesc, hrec]

theorem pEsc_quote (t : List Char) : pEsc (quoteC :: t) = some (quoteC, t) := by
  simp only [pEsc, if_true]

theorem pEsc_backslash (t : List Char) :
    pEsc (backslashC :: t) = some (backslashC, t) := by
  simp only [pEsc]
  rw [if_neg (by decide)]
  simp only [if_true]

theorem pEsc_b (t : List Char) : pEsc ('b' :: t) = some (Char.ofNat 8, t) := by
  simp +decide only [pEsc, if_false, if_true]

theorem pEsc_t (t : List Char) : pEsc ('t' :: t) = some (Char.ofNat 9, t) := by
  simp +decide only [pEsc, if_false, if_true]

theorem pEsc_n (t : List Char) : pEsc ('n' :: t) = some (Char.ofNat 10, t) := by
  simp +decide only [pEsc, if_false, if_true]

theorem pEsc_f (t : List Char) : pEsc ('f' :: t) = some (Char.ofNat 12, t) := by
  simp +decide only [pEsc, if_false, if_true]

theorem pEsc_r (t : List Char) : pEsc ('r' :: t) = some (Char.ofNat 13, t) := by
  simp +decide only [pEsc, if_false, if_true]

/-- Round-trip of string bodies: parsing the escaped form of `l` followed by
the closing quote yields `l` back. -/
theorem pStrBody_escList :
    ∀ (l : List Char) (fuel : Nat) (rest : List Char), l.length < fuel →
    pStrBody fuel (escList l ++ (quoteC :: rest)) = some (l, rest) := by
  intro l
  induction l with
  | nil =>
    intro fuel rest h
    cases fuel with
    | zero => omega
    | succ f =>
      simp only [escList, List.nil_append, pStrBody, if_true]
  | cons c l ih =>
    intro fuel rest h
    cases fuel with
    | zero => omega
    | succ f =>
      have hf : l.length < f := by
        simp only [List.length_cons] at h
        omega
      have hrec := ih f rest hf
      simp only [escList, List.append_assoc]
      by_cases hq : c = quoteC
      · subst hq
        simp only [escChar, if_true, List.cons_append, List.nil_append]
        exact pStrBody_step_esc f quoteC [quoteC] _ l rest (pEsc_quote _) hrec
      · by_cases hbs : c = backslashC
        · subst hbs
          simp only [escChar, if_neg (by decide : ¬(backslashC = quoteC)), if_true,
            List.cons_append, List.nil_append]
          exact pStrBody_step_esc f backslashC [backslashC] _ l rest
            (pEsc_backslash _) hrec
        · by_cases h8 : c.toNat = 8
          · simp only [escChar, if_neg hq, if_neg hbs, if_pos h8,
              List.cons_append, List.nil_append]
            have hstep := pStrBody_step_esc f (Char.ofNat 8) ['b'] _ l rest (pEsc_b _) hrec
            have hc : Char.ofNat 8 = c := by rw [← h8, Char.ofNat_toNat]
            rw [← hc]
            exact hstep
          · by_cases h9 : c.toNat = 9
            · simp only [escChar, if_neg hq, if_neg hbs, if_neg h8, if_pos h9,
                List.cons_append, List.nil_append]
              have hstep := pStrBody_step_esc f (Char.ofNat 9) ['t'] _ l rest (pEsc_t _) hrec
              have hc : Char.ofNat 9 = c := by rw [← h9, Char.ofNat_toNat]
              rw [← hc]
              exact hstep
            · by_cases h10 : c.toNat = 10
              · simp only [escChar, if_neg hq, if_neg hbs, if_neg h8, if_neg h9,
                  if_pos h10, List.cons_append, List.nil_append]
                have hstep := pStrBody_step_esc f (Char.ofNat 10) ['n'] _ l rest (pEsc_n _) hrec
                have hc : Char.ofNat 10 = c := by rw [← h10, Char.ofNat_toNat]
                rw [← hc]
                exact hstep
              · by_cases h12 : c.toNat = 12
                · simp only [escChar, if_neg hq, if_neg hbs, if_neg h8, if_neg h9,
                    if_neg h10, if_pos h12, List.cons_append, List.nil_append]
                  have hstep := pStrBody_step_esc f (Char.ofNat 12) ['f'] _ l rest (pEsc_f _) hrec
                  have hc : Char.ofNat 12 = c := by rw [← h12, Char.ofNat_toNat]
                  rw [← hc]
                  exact hstep
                · by_cases h13 : c.toNat = 13
                  · simp only [escChar, if_neg hq, if_neg hbs, if_neg h8, if_neg h9,
                      if_neg h10, if_neg h12, if_pos h13, List.cons_append, List.nil_append]
                    have hstep := pStrBody_step_esc f (Char.ofNat 13) ['r'] _ l rest (pEsc_r _) hrec
                    have hc : Char.ofNat 13 = c := by rw [← h13, Char.ofNat_toNat]
                    rw [← hc]
                    exact hstep
                  · by_cases hpr : 32 ≤ c.toNat ∧ c.toNat ≤ 126
                    · simp only [escChar, if_neg hq, if_neg hbs, if_neg h8, if_neg h9,
                        if_neg h10, if_neg h12, if_neg h13, if_pos hpr,
                        List.cons_append, List.nil_append]
                      simp only [pStrBody]
                      rw [if_neg hq, if_neg hbs, if_neg (by omega), hrec]
                    · by_cases h16 : c.toNat < 65536
                      · simp only [escChar, if_neg hq, if_neg hbs, if_neg h8, if_neg h9,
                          if_neg h10, if_neg h12, if_neg h13, if_neg hpr, if_pos h16,
                          List.cons_append]
                        have hs : ¬ (55296 ≤ c.toNat ∧ c.toNat ≤ 57343) := by
                          rcases char_valid_nat c with hv | hv <;> omega
                        have := pStrBody_step_esc f (Char.ofNat c.toNat)
                          ('u' :: hex4 c.toNat) _ l rest
                          (by rw [List.cons_append]; exact pEsc_u h16 hs _) hrec
                        simpa [Char.ofNat_toNat] using this
                      · simp only [escChar, if_neg hq, if_neg hbs, if_neg h8, if_neg h9,
                          if_neg h10, if_neg h12, if_neg h13, if_neg hpr, if_neg h16,
                          List.cons_append, List.append_assoc, List.nil_append]
                        have hlo : 65536 ≤ c.toNat := by omega
                        have hhi : c.toNat < 1114112 := by
                          rcases char_valid_nat c with hv | hv <;> omega
                        have := pStrBody_step_esc f (Char.ofNat c.toNat)
                          ('u' :: (hex4 (55296 + (c.toNat - 65536) / 1024) ++
                            (backslashC :: 'u' :: hex4 (56320 + (c.toNat - 65536) % 1024))))
                          _ l rest
                          (pEsc_pair hlo hhi _) hrec
                        simpa [Char.ofNat_toNat, List.append_assoc] using this

theorem digitVal_digitChar {d : Nat} (h : d < 10) :
    digitVal (digitChar d) = d := by
  interval_cases d <;> decide

theorem isDigitChar_digitChar {d : Nat} (h : d < 10) :
    isDigitChar (digitChar d) = true := by
  interval_cases d <;> decide

theorem digitChar_ne_zero {d : Nat} (h1 : 1 ≤ d) (h2 : d < 10) :
    digitChar d ≠ '0' := by
  interval_cases d <;> decide

theorem natDigitsAux_zero (fuel : Nat) : natDigitsAux fuel 0 = [] := by
  cases fuel <;> rfl

theorem natDigitsAux_all_digits :
    ∀ fuel n c, c ∈ natDigitsAux fuel n → isDigitChar c = true := by
  intro fuel
  induction fuel with
  | zero =>
    intro n c h
    simp [natDigitsAux] at h
  | succ f ih =>
    intro n c h
    match n with
    | 0 => rw [natDigitsAux_zero] at h; simp at h
    | m + 1 =>
      simp only [natDigitsAux] at h
      rcases List.mem_append.mp h with h1 | h2
      · exact ih _ c h1
      · simp at h2
        subst h2
        exact isDigitChar_digitChar (Nat.mod_lt _ (by omega))

theorem foldDigits_append (acc : Nat) (l1 l2 : List Char) :
    foldDigits acc (l1 ++ l2) = foldDigits (foldDigits acc l1) l2 := by
  induction l1 generalizing acc with
  | nil => rfl
  | cons c r ih => exact ih _

theorem foldDigits_natDigitsAux :
    ∀ fuel n acc, n < fuel →
    foldDigits acc (natDigitsAux fuel n) =
      acc * 10 ^ (natDigitsAux fuel n).length + n := by
  intro fuel
  induction fuel with
  | zero => intro n acc h; omega
  | succ f ih =>
    intro n acc h
    match n with
    | 0 => rw [natDigitsAux_zero, foldDigits_nil]; simp
    | m + 1 =>
      have hq : (m + 1) / 10 < f := by omega
      simp only [natDigitsAux]
      rw [foldDigits_append, ih _ acc hq]
      rw [foldDigits_cons, foldDigits_nil]
      rw [digitVal_digitChar (Nat.mod_lt _ (by omega))]
      rw [List.length_append, List.length_singleton, pow_succ]
      have hdm : (m + 1) / 10 * 10 + (m + 1) % 10 = m + 1 := by omega
      set L := (natDigitsAux f ((m + 1) / 10)).length
      have : (acc * 10 ^ L + (m + 1) / 10) * 10 + (m + 1) % 10 =
          acc * (10 ^ L * 10) + ((m + 1) / 10 * 10 + (m + 1) % 10) := by ring
      rw [this, hdm]

theorem natDigitsAux_head :
    ∀ fuel n, 1 ≤ n → n < fuel →
    ∃ d ds, natDigitsAux fuel n = d :: ds ∧ isDigitChar d = true ∧ d ≠ '0' := by
  intro fuel
  induction fuel with
  | zero => intro n h1 h2; omega
  | succ f ih =>
    intro n h1 h2
    match n, h1 with
    | m + 1, _ =>
      simp only [natDigitsAux]
      by_cases hsm : m + 1 < 10
      · have hq : (m + 1) / 10 = 0 := by omega
        rw [hq, natDigitsAux_zero, List.nil_append]
        refine ⟨digitChar ((m + 1) % 10), [], rfl, ?_, ?_⟩
        · exact isDigitChar_digitChar (Nat.mod_lt _ (by omega))
        · have hm : (m + 1) % 10 = m + 1 := Nat.mod_eq_of_lt hsm
          rw [hm]
          exact digitChar_ne_zero (by omega) hsm
      · have hq1 : 1 ≤ (m + 1) / 10 := by omega
        have hq2 : (m + 1) / 10 < f := by omega
        obtain ⟨d, ds, heq, hd1, hd2⟩ := ih _ hq1 hq2
        exact ⟨d, ds ++ [digitChar ((m + 1) % 10)], by rw [heq]; rfl, hd1, hd2⟩

theorem takeWhile_all_append (p : Char → Bool) (l1 l2 : List Char)
    (h1 : ∀ c ∈ l1, p c = true)
    (h2 : ∀ c, l2.head? = some c → p c = false) :
    List.takeWhile p (l1 ++ l2) = l1 ∧ List.dropWhile p (l1 ++ l2) = l2 := by
  induction l1 with
  | nil =>
    cases l2 with
    | nil => simp
    | cons c r =>
      have := h2 c rfl
      simp [List.takeWhile_cons, List.dropWhile_cons, this]
  | cons c r ih =>
    have hc := h1 c (by simp)
    have hr : ∀ x ∈ r, p x = true := fun x hx => h1 x (by simp [hx])
    obtain ⟨ht, hd⟩ := ih hr
    simp [List.takeWhile_cons, List.dropWhile_cons, hc, ht, hd]

theorem natDigits_pos (m : Nat) (h : 1 ≤ m) :
    natDigits m = natDigitsAux (m + 1) m := by
  rw [natDigits, if_neg (by omega)]

/-- `pNumBody` applied to the decimal digits of a positive `m`. -/
theorem pNumBody_natDigits (neg : Bool) (m : Nat) (h : 1 ≤ m)
    (rest : List Char) (hrest : headNotDigit rest) :
    pNumBody neg (natDigits m ++ rest) =
      some (if neg then -(Int.ofNat m) else Int.ofNat m, rest) := by
  rw [natDigits_pos m h]
  obtain ⟨d, ds, heq, hd, hd0⟩ := natDigitsAux_head (m + 1) m h (by omega)
  have hds : ∀ c ∈ ds, isDigitChar c = true := fun c hc =>
    natDigitsAux_all_digits (m + 1) m c (by rw [heq]; simp [hc])
  obtain ⟨htake, hdrop⟩ := takeWhile_all_append isDigitChar ds rest hds hrest
  have hfold : foldDigits (digitVal d) ds = m := by
    have h0 := foldDigits_natDigitsAux (m + 1) m 0 (by omega)
    rw [heq] at h0
    rw [foldDigits_cons, Nat.zero_mul, Nat.zero_add] at h0
    simpa using h0
  rw [heq]
  simp only [pNumBody, List.cons_append]
  rw [if_neg hd0, if_pos hd]
  rw [htake, hdrop, hfold]

/-- Round-trip of integer literals: parsing `repr(n)` followed by input that
does not begin with a digit yields `n` back. -/
theorem pNum_dumpInt (n : Int) (rest : List Char) (hrest : headNotDigit rest) :
    pNum (dumpInt n ++ rest) = some (n, rest) := by
  rcases lt_or_le n 0 with hneg | hpos
  · have habs : 1 ≤ n.natAbs := by omega
    rw [show dumpInt n = '-' :: natDigits n.natAbs from by
      rw [dumpInt, if_pos hneg]]
    rw [List.cons_append]
    simp only [pNum, if_true]
    rw [pNumBody_natDigits true n.natAbs habs rest hrest]
    have h1 : -(Int.ofNat n.natAbs) = n := by
      rw [Int.ofNat_eq_coe]
      omega
    simp only [if_true, h1]
  · rw [show dumpInt n = natDigits n.natAbs from by
      rw [dumpInt, if_neg (by omega)]]
    by_cases h0 : n.natAbs = 0
    · have hn : n = 0 := by omega
      subst hn
      rw [show natDigits (0 : Int).natAbs = ['0'] from rfl, List.cons_append]
      simp +decide only [pNum, pNumBody, if_false, if_true, List.nil_append]
    · have habs : 1 ≤ n.natAbs := by omega
      have hd : ∃ d ds, natDigits n.natAbs = d :: ds ∧ isDigitChar d = true := by
        rw [natDigits_pos _ habs]
        obtain ⟨d, ds, heq, hdig, _⟩ :=
          natDigitsAux_head (n.natAbs + 1) n.natAbs habs (by omega)
        exact ⟨d, ds, heq, hdig⟩
      obtain ⟨d, ds, heq, hdig⟩ := hd
      have hnotminus : ¬ (d = '-') := digit_ne hdig '-' (Or.inr (by decide))
      rw [heq, List.cons_append]
      simp only [pNum]
      rw [if_neg hnotminus, ← List.cons_append, ← heq]
      rw [pNumBody_natDigits false n.natAbs habs rest hrest]
      have h1 : Int.ofNat n.natAbs = n := by
        rw [Int.ofNat_eq_coe]
        omega
      simp only [Bool.false_eq_true, if_false, h1]

theorem escChar_length_pos (c : Char) : 1 ≤ (escChar c).length := by
  simp only [escChar]
  split_ifs <;> simp [hex4]

theorem length_le_escList : ∀ l : List Char, l.length ≤ (escList l).length := by
  intro l
  induction l with
  | nil => simp [escList]
  | cons c r ih =>
    have := escChar_length_pos c
    simp only [escList, List.length_append, List.length_cons]
    omega

/-- The first character of any printed JSON value is neither whitespace nor
a closing bracket. -/
theorem dumpVal_head (j : Json) (ind : Nat) :
    ∃ c cs, dumpVal j ind = c :: cs ∧ isWsChar c = false ∧
      c ≠ rbrackC ∧ c ≠ rbraceC := by
  cases j with
  | num n =>
    show ∃ c cs, dumpInt n = c :: cs ∧ _
    by_cases hn : n < 0
    · rw [dumpInt, if_pos hn]
      refine ⟨'-', _, rfl, ?_, ?_, ?_⟩ <;> decide
    · rw [dumpInt, if_neg hn]
      by_cases h0 : n.natAbs = 0
      · rw [h0]
        refine ⟨'0', _, rfl, ?_, ?_, ?_⟩ <;> decide
      · rw [natDigits_pos _ (by omega)]
        obtain ⟨d, ds, heq, hdig, _⟩ :=
          natDigitsAux_head (n.natAbs + 1) n.natAbs (by omega) (by omega)
        refine ⟨d, ds, heq, digit_not_ws hdig, ?_, ?_⟩
        · exact digit_ne hdig rbrackC (Or.inl (by decide))
        · exact digit_ne hdig rbraceC (Or.inl (by decide))
  | null => refine ⟨'n', _, rfl, ?_, ?_, ?_⟩ <;> decide
  | bool b => cases b <;> [skip; skip] <;> refine ⟨_, _, rfl, ?_, ?_, ?_⟩ <;> decide
  | str s => refine ⟨quoteC, _, rfl, ?_, ?_, ?_⟩ <;> decide
  | arr l => cases l <;> refine ⟨lbrackC, _, rfl, ?_, ?_, ?_⟩ <;> decide
  | obj l => cases l <;> refine ⟨lbraceC, _, rfl, ?_, ?_, ?_⟩ <;> decide

theorem keyElem_append (k : String) (A B : List String) :
    keyElem k (A ++ B) = (keyElem k A || keyElem k B) := by
  induction A with
  | nil => simp [keyElem]
  | cons a r ih => simp [keyElem, ih, Bool.or_assoc]

theorem insertUpd_append (k : String) (v : Json) :
    ∀ acc : List (String × Json), keyElem k (acc.map Prod.fst) = false →
    insertUpd k v acc = acc ++ [(k, v)] := by
  intro acc
  induction acc with
  | nil => intro _; rfl
  | cons kv r ih =>
    intro h
    simp only [List.map_cons, keyElem, Bool.or_eq_false_iff,
      beq_eq_false_iff_ne, ne_eq] at h
    obtain ⟨hne, hrest⟩ := h
    simp only [insertUpd, if_neg hne, List.cons_append]
    rw [ih hrest]

theorem nodupKeys_not_mem :
    ∀ (A : List String) (k : String) (B : List String),
    nodupKeys (A ++ k :: B) = true → keyElem k A = false := by
  intro A
  induction A with
  | nil => intro k B _; rfl
  | cons a A ih =>
    intro k B h
    simp only [List.cons_append, nodupKeys, Bool.and_eq_true,
      Bool.not_eq_true'] at h
    obtain ⟨hc, hrest⟩ := h
    simp only [keyElem, Bool.or_eq_false_iff]
    constructor
    · by_contra hk
      simp only [Bool.not_eq_false, beq_iff_eq] at hk
      subst hk
      simp only [List.append_eq] at hc
      rw [keyElem_append] at hc
      simp [keyElem] at hc
    · exact ih k B hrest

mutual

theorem fuelV_le (j : Json) (ind : Nat) :
    fuelV j ≤ (dumpVal j ind).length + 1 := by
  cases j with
  | null => simp [fuelV, dumpVal]
  | bool b => cases b <;> simp [fuelV, dumpVal]
  | num n => simp [fuelV]
  | str s => simp [fuelV]
  | arr l =>
    cases l with
    | nil => simp [fuelV, dumpVal]
    | cons x xs =>
      have h1 := fuelV_le x (ind + 2)
      have h2 := fuelE_le xs (ind + 2)
      simp only [fuelV, fuelE, dumpVal, List.length_cons, List.length_append,
        nlInd, List.length_replicate]
      omega
  | obj l =>
    cases l with
    | nil => simp [fuelV, dumpVal]
    | cons kv kvs =>
      have h1 := fuelV_le kv.2 (ind + 2)
      have h2 := fuelF_le kvs (ind + 2)
      simp only [fuelV, fuelF, dumpVal, List.length_cons, List.length_append,
        nlInd, List.length_replicate]
      omega

theorem fuelE_le (l : List Json) (ind : Nat) :
    fuelE l ≤ (dumpElems l ind).length := by
  cases l with
  | nil => simp [fuelE, dumpElems]
  | cons x xs =>
    have h1 := fuelV_le x ind
    have h2 := fuelE_le xs ind
    simp only [fuelE, dumpElems, List.length_cons, List.length_append,
      nlInd, List.length_replicate]
    omega

theorem fuelF_le (l : List (String × Json)) (ind : Nat) :
    fuelF l ≤ (dumpFields l ind).length := by
  cases l with
  | nil => simp [fuelF, dumpFields]
  | cons kv kvs =>
    have h1 := fuelV_le kv.2 ind
    have h2 := fuelF_le kvs ind
    simp only [fuelF, dumpFields, List.length_cons, List.length_append,
      nlInd, List.length_replicate]
    omega

end

theorem mk_data (s : String) : String.mk s.data = s := rfl

theorem one_le_fuelV (j : Json) : 1 ≤ fuelV j := by
  cases j with
  | arr l => cases l <;> simp [fuelV, fuelE]
  | obj l => cases l <;> simp [fuelF, fuelV]
  | null => simp [fuelV]
  | bool b => simp [fuelV]
  | num n => simp [fuelV]
  | str s => simp [fuelV]

/-- The first character of a printed integer, with the facts the `pVal`
dispatch needs about it. -/
theorem dumpInt_head (n : Int) :
    ∃ c cs, dumpInt n = c :: cs ∧ isWsChar c = false ∧
      c ≠ lbraceC ∧ c ≠ lbrackC ∧ c ≠ quoteC ∧ c ≠ 't' ∧ c ≠ 'f' ∧ c ≠ 'n' ∧
      (c = '-' || isDigitChar c) = true := by
  by_cases hn : n < 0
  · rw [dumpInt, if_pos hn]
    exact ⟨'-', _, rfl, by decide, by decide, by decide, by decide, by decide,
      by decide, by decide, by decide⟩
  · rw [dumpInt, if_neg hn]
    by_cases h0 : n.natAbs = 0
    · rw [h0]
      exact ⟨'0', _, rfl, by decide, by decide, by decide, by decide, by decide,
        by decide, by decide, by decide⟩
    · rw [natDigits_pos _ (by omega)]
      obtain ⟨d, ds, heq, hdig, _⟩ :=
        natDigitsAux_head (n.natAbs + 1) n.natAbs (by omega) (by omega)
      refine ⟨d, ds, heq, digit_not_ws hdig,
        digit_ne hdig lbraceC (Or.inl (by decide)),
        digit_ne hdig lbrackC (Or.inl (by decide)),
        digit_ne hdig quoteC (Or.inr (by decide)),
        digit_ne hdig 't' (Or.inl (by decide)),
        digit_ne hdig 'f' (Or.inl (by decide)),
        digit_ne hdig 'n' (Or.inl (by decide)), ?_⟩
      simp [hdig]

theorem headNotDigit_nlInd (n : Nat) (l : List Char) :
    headNotDigit (nlInd n ++ l) := by
  simp only [nlInd, List.cons_append]
  exact headNotDigit_cons (by decide)

theorem pVal_space (fuel : Nat) (cs : List Char) :
    pVal fuel (' ' :: cs) = pVal fuel cs := by
  have := pVal_ws_front fuel [' '] cs
    (by rw [List.singleton_append, skipWs_space])
  simpa using this

theorem roundtrip_main : ∀ fuel : Nat,
    (∀ j ind rest, wfB j = true → fuelV j ≤ fuel → headNotDigit rest →
      pVal fuel (dumpVal j ind ++ rest) = some (j, rest)) ∧
    (∀ x xs acc ind indOut rest, wfElems (x :: xs) = true →
      fuelE (x :: xs) ≤ fuel →
      pElems fuel (nlInd ind ++ (dumpVal x ind ++ (dumpElems xs ind ++
        (nlInd indOut ++ (rbrackC :: rest))))) acc =
        some (Json.arr (acc ++ x :: xs), rest)) ∧
    (∀ k v kvs acc ind indOut rest,
      nodupKeys ((acc ++ (k, v) :: kvs).map Prod.fst) = true →
      wfFields ((k, v) :: kvs) = true →
      fuelF ((k, v) :: kvs) ≤ fuel →
      pFields fuel (nlInd ind ++ (dumpStr k ++ (':' :: ' ' :: (dumpVal v ind ++
        (dumpFields kvs ind ++ (nlInd indOut ++ (rbraceC :: rest))))))) acc =
        some (Json.obj (acc ++ (k, v) :: kvs), rest)) := by
  intro fuel
  induction fuel with
  | zero =>
    refine ⟨fun j ind rest hwf hfuel hrest => ?_,
      fun x xs acc ind indOut rest hwf hfuel => ?_,
      fun k v kvs acc ind indOut rest hnd hwf hfuel => ?_⟩
    · have := one_le_fuelV j; omega
    · simp [fuelE] at hfuel
    · simp [fuelF] at hfuel
  | succ f ih =>
    refine ⟨fun j ind rest hwf hfuel hrest => ?_,
      fun x xs acc ind indOut rest hwf hfuel => ?_,
      fun k v kvs acc ind indOut rest hnd hwf hfuel => ?_⟩
    · -- pVal
      cases j with
      | null =>
        show pVal (f + 1) ('n' :: ('u' :: 'l' :: 'l' :: rest)) = some (.null, rest)
        simp only [pVal]
        rw [skipWs_cons_not_ws (by decide)]
        simp +decide only [if_false, if_true]
      | bool b =>
        cases b with
        | true =>
          show pVal (f + 1) ('t' :: ('r' :: 'u' :: 'e' :: rest)) =
            some (.bool true, rest)
          simp only [pVal]
          rw [skipWs_cons_not_ws (by decide)]
          simp +decide only [if_false, if_true]
        | false =>
          show pVal (f + 1) ('f' :: ('a' :: 'l' :: 's' :: 'e' :: rest)) =
            some (.bool false, rest)
          simp only [pVal]
          rw [skipWs_cons_not_ws (by decide)]
          simp +decide only [if_false, if_true]
      | num n =>
        show pVal (f + 1) (dumpInt n ++ rest) = some (.num n, rest)
        obtain ⟨c, cs, heq, hws, h1, h2, h3, h4, h5, h6, h7⟩ := dumpInt_head n
        rw [heq, List.cons_append]
        simp only [pVal, skipWs_cons_not_ws hws, h1, h2, h3, h4, h5, h6, h7,
          if_false, if_true]
        rw [← List.cons_append, ← heq, pNum_dumpInt n rest hrest]
      | str s =>
        show pVal (f + 1) (dumpStr s ++ rest) = some (.str s, rest)
        simp only [dumpStr, List.cons_append, List.append_assoc,
          List.singleton_append, List.nil_append]
        simp +decide only [pVal,
          skipWs_cons_not_ws (show isWsChar quoteC = false from by decide),
          if_false, if_true]
        rw [pStrBody_escList s.data _ rest (by
          have := length_le_escList s.data
          simp only [List.length_append, List.length_cons]
          omega)]
      | arr l =>
        cases l with
        | nil =>
          show pVal (f + 1) (lbrackC :: (rbrackC :: rest)) = some (.arr [], rest)
          simp +decide only [pVal,
            skipWs_cons_not_ws (show isWsChar lbrackC = false from by decide),
            skipWs_cons_not_ws (show isWsChar rbrackC = false from by decide),
            if_false, if_true]
        | cons x xs =>
          simp only [wfB] at hwf
          simp only [fuelV] at hfuel
          obtain ⟨c, cs, heq, hws, hnb, hnb2⟩ := dumpVal_head x (ind + 2)
          simp only [dumpVal, List.cons_append, List.append_assoc,
            List.singleton_append, List.nil_append]
          have hif : skipWs (nlInd (ind + 2) ++ (dumpVal x (ind + 2) ++
              (dumpElems xs (ind + 2) ++ (nlInd ind ++ (rbrackC :: rest))))) =
              c :: (cs ++ (dumpElems xs (ind + 2) ++ (nlInd ind ++ (rbrackC :: rest)))) := by
            rw [skipWs_nlInd, heq, List.cons_append, skipWs_cons_not_ws hws]
          simp +decide only [pVal,
            skipWs_cons_not_ws (show isWsChar lbrackC = false from by decide),
            if_false, if_true, hif, hnb]
          rw [ih.2.1 x xs [] (ind + 2) ind rest hwf (by omega)]
          simp
      | obj l =>
        cases l with
        | nil =>
          show pVal (f + 1) (lbraceC :: (rbraceC :: rest)) = some (.obj [], rest)
          simp +decide only [pVal,
            skipWs_cons_not_ws (show isWsChar lbraceC = false from by decide),
            skipWs_cons_not_ws (show isWsChar rbraceC = false from by decide),
            if_false, if_true]
        | cons kv kvs =>
          obtain ⟨k, v⟩ := kv
          simp only [wfB, List.map_cons, Bool.and_eq_true] at hwf
          obtain ⟨hndp, hwff⟩ := hwf
          simp only [fuelV] at hfuel
          simp only [dumpVal, List.cons_append, List.append_assoc,
            List.singleton_append, List.nil_append]
          have hif : skipWs (nlInd (ind + 2) ++ (dumpStr k ++
              (':' :: ' ' :: (dumpVal v (ind + 2) ++ (dumpFields kvs (ind + 2) ++
                (nlInd ind ++ (rbraceC :: rest))))))) =
              quoteC :: (escList k.data ++ (quoteC :: (':' :: ' ' ::
                (dumpVal v (ind + 2) ++ (dumpFields kvs (ind + 2) ++
                  (nlInd ind ++ (rbraceC :: rest))))))) := by
            rw [skipWs_nlInd]
            simp only [dumpStr, List.cons_append, List.append_assoc,
              List.singleton_append, List.nil_append]
            rw [skipWs_cons_not_ws (show isWsChar quoteC = false from by decide)]
          simp +decide only [pVal,
            skipWs_cons_not_ws (show isWsChar lbraceC = false from by decide),
            if_false, if_true, hif]
          have harg := ih.2.2 k v kvs [] (ind + 2) ind rest
            (by simp only [List.nil_append, List.map_cons]; exact hndp)
            hwff (by omega)
          simp only [List.nil_append] at harg
          rw [show (nlInd (ind + 2) ++ (dumpStr k ++ (':' :: ' ' ::
            (dumpVal v (ind + 2) ++ (dumpFields kvs (ind + 2) ++
              (nlInd ind ++ (rbraceC :: rest))))))) =
            (nlInd (ind + 2) ++ (dumpStr k ++ (':' :: ' ' ::
            (dumpVal v (ind + 2) ++ (dumpFields kvs (ind + 2) ++
              (nlInd ind ++ (rbraceC :: rest))))))) from rfl]
          exact harg
    · -- pElems
      simp only [wfElems, Bool.and_eq_true] at hwf
      obtain ⟨hwx, hwxs⟩ := hwf
      simp only [fuelE] at hfuel
      simp only [pElems]
      cases xs with
      | nil =>
        simp only [dumpElems, List.nil_append]
        rw [pVal_ws_front f (nlInd ind) _ (skipWs_nlInd _ _)]
        rw [ih.1 x ind _ hwx (by omega) (headNotDigit_nlInd _ _)]
        simp +decide only [skipWs_nlInd,
          skipWs_cons_not_ws (show isWsChar rbrackC = false from by decide),
          if_false, if_true]
      | cons y ys =>
        simp only [dumpElems, List.cons_append, List.append_assoc]
        rw [pVal_ws_front f (nlInd ind) _ (skipWs_nlInd _ _)]
        rw [ih.1 x ind _ hwx (by omega) (headNotDigit_cons (by decide))]
        simp +decide only [
          skipWs_cons_not_ws (show isWsChar ',' = false from by decide),
          if_false, if_true]
        have hrec := ih.2.1 y ys (acc ++ [x]) ind indOut rest hwxs (by omega)
        rw [hrec]
        simp
    · -- pFields
      simp only [wfFields, Bool.and_eq_true] at hwf
      obtain ⟨hwv, hwfs⟩ := hwf
      simp only [fuelF] at hfuel
      have hkey : keyElem k (acc.map Prod.fst) = false := by
        simp only [List.map_append, List.map_cons] at hnd
        exact nodupKeys_not_mem _ _ _ hnd
      have hif : skipWs (nlInd ind ++ (dumpStr k ++ (':' :: ' ' ::
          (dumpVal v ind ++ (dumpFields kvs ind ++ (nlInd indOut ++
            (rbraceC :: rest))))))) =
          quoteC :: (escList k.data ++ (quoteC :: (':' :: ' ' ::
            (dumpVal v ind ++ (dumpFields kvs ind ++ (nlInd indOut ++
              (rbraceC :: rest))))))) := by
        rw [skipWs_nlInd]
        simp only [dumpStr, List.cons_append, List.append_assoc,
          List.singleton_append, List.nil_append]
        rw [skipWs_cons_not_ws (show isWsChar quoteC = false from by decide)]
      simp +decide only [pFields, hif, if_false, if_true]
      rw [pStrBody_escList k.data _ _ (by
        have := length_le_escList k.data
        simp only [List.length_append, List.length_cons]
        omega)]
      simp +decide only [
        skipWs_cons_not_ws (show isWsChar ':' = false from by decide),
        if_false, if_true, mk_data, pVal_space]
      cases kvs with
      | nil =>
        simp only [dumpFields, List.nil_append]
        rw [ih.1 v ind _ hwv (by omega) (headNotDigit_nlInd _ _)]
        simp +decide only [skipWs_nlInd,
          skipWs_cons_not_ws (show isWsChar rbraceC = false from by decide),
          if_false, if_true]
        rw [insertUpd_append k v acc hkey]
      | cons kv2 kvs2 =>
        obtain ⟨k2, v2⟩ := kv2
        simp only [dumpFields, List.cons_append, List.append_assoc]
        rw [ih.1 v ind _ hwv (by omega) (headNotDigit_cons (by decide))]
        simp +decide only [
          skipWs_cons_not_ws (show isWsChar ',' = false from by decide),
          if_false, if_true]
        rw [insertUpd_append k v acc hkey]
        have hnd2 : nodupKeys ((((acc ++ [(k, v)]) ++ (k2, v2) :: kvs2)).map
            Prod.fst) = true := by
          have heq2 : (acc ++ [(k, v)]) ++ (k2, v2) :: kvs2 =
              acc ++ (k, v) :: (k2, v2) :: kvs2 := by simp
          rw [heq2]
          exact hnd
        have hrec := ih.2.2 k2 v2 kvs2 (acc ++ [(k, v)]) ind indOut rest hnd2
          hwfs (by omega)
        rw [hrec]
        simp
theorem data_mk (l : List Char) : (String.mk l).data = l := rfl

/-- C9 (confirmed). Round-trip: for every credential value (any JSON value
with the Python-dict invariant of distinct keys per object), writing it with
`save()` — `json.dump(auth, f, indent=2)` — and reading it back with
`load()` — `json.load(f)` — yields the identical value: equal token string
and equal claims. -/
theorem c9_save_load_roundtrip (auth : Json) (h : wfB auth = true) :
    Json.loads (Json.dumps auth) = some auth := by
  have hmain := (roundtrip_main ((dumpVal auth 0).length + 1)).1 auth 0 [] h
    (by have := fuelV_le auth 0; omega) headNotDigit_nil
  rw [List.append_nil] at hmain
  simp only [Json.loads, Json.dumps, data_mk]
  rw [hmain]
  simp [skipWs]

/-- C9 (witness): a concrete credential round-trips. -/
theorem c9_save_load_roundtrip_witness :
    wfB (Json.obj [("token", Json.str "h.eyJleHAiOjk5OTk5OTk5OTl9.s"),
      ("agent", Json.obj [("id", Json.num 7)])]) = true ∧
    Json.loads (Json.dumps (Json.obj
      [("token", Json.str "h.eyJleHAiOjk5OTk5OTk5OTl9.s"),
       ("agent", Json.obj [("id", Json.num 7)])])) =
      some (Json.obj [("token", Json.str "h.eyJleHAiOjk5OTk5OTk5OTl9.s"),
        ("agent", Json.obj [("id", Json.num 7)])]) :=
  ⟨rfl, c9_save_load_roundtrip _ rfl⟩

end GatherAgent
